import Mathlib

/-
Verification of a minimal reimplementation of the Unix install utility
(src/install.c) against its natural-language specification.

Modelling conventions (shallow embedding of the C source):
- Paths are byte strings, modelled as lists of characters (FPath).
- The filesystem is a flat association list from path strings to objects,
  mirroring the flat namespace the program manipulates through syscalls.
  Relative symlink targets are looked up in the same flat namespace
  (everything is interpreted relative to one working directory).
- Machine integers: unsigned long is 64 bits, and uid_t / gid_t / mode_t
  are 32 bits (the LP64 Linux ABI the program targets); conversions
  reduce modulo 2 ^ 32 or 2 ^ 64 where the C code converts.
- malloc and snprintf are assumed to succeed (the corresponding fatal
  paths in the C code are not modelled); directory and symlink permission
  bits are stored as the nominal values the code requests, with umask
  abstracted away, since no claim observes them.
- Fallible syscalls whose failure is not determined by the filesystem
  state (chmod, lchown, lstat, read, write) take failure-injection flags
  from the environment, so that claims about those failure paths can be
  stated; syscall failures that are determined by the state (ENOENT,
  EEXIST, ENOTDIR, EISDIR) are computed from the state.
-/

set_option autoImplicit false

namespace Install

/-- A path (or any C byte string) is a list of characters. -/
abbrev FPath := List Char

instance instDecEqExcept {α β : Type} [DecidableEq α] [DecidableEq β] :
    DecidableEq (Except α β) := fun a b =>
  match a, b with
  | .error x, .error y =>
    if h : x = y then .isTrue (by rw [h])
    else .isFalse (fun hc => h (by injection hc))
  | .ok x, .ok y =>
    if h : x = y then .isTrue (by rw [h])
    else .isFalse (fun hc => h (by injection hc))
  | .error _, .ok _ => .isFalse (fun hc => by injection hc)
  | .ok _, .error _ => .isFalse (fun hc => by injection hc)

/-- Errno values the model distinguishes. -/
inductive Errno where
  | eexist
  | enoent
  | enotdir
  deriving DecidableEq

/-- A filesystem object: regular file (content bytes, permission bits,
owner, group), directory, symbolic link (literal target text, owner,
group; on Linux a symlink's permission bits are fixed), or any other
file type (socket, fifo, device). -/
inductive FsObj where
  | file (content : List Nat) (mode : Nat) (owner : Nat) (group : Nat)
  | dir (mode : Nat) (owner : Nat) (group : Nat)
  | symlink (target : FPath) (owner : Nat) (group : Nat)
  | other
  deriving DecidableEq

/-- The flat filesystem: an association list from paths to objects. -/
abbrev Fs := List (FPath × FsObj)

/-- Look up the object at a path. -/
def fsFind : Fs → FPath → Option FsObj
  | [], _ => none
  | (q, o) :: t, p => if q = p then some o else fsFind t p

/-- Remove every entry at a path. -/
def fsDel : Fs → FPath → Fs
  | [], _ => []
  | (q, o) :: t, p => if q = p then fsDel t p else (q, o) :: fsDel t p

/-- Create or replace the entry at a path. -/
def fsSet (fs : Fs) (p : FPath) (o : FsObj) : Fs :=
  (p, o) :: fsDel fs p

/-- Forward scan computing the index of the last slash in a path,
defaulting to 0, exactly as the backwards scan in mkparents
(install.c lines 53-59) computes it: the result l satisfies
l = 0 or the character at index l is a slash. -/
def lastSlashAux : List Char → Nat → Nat → Nat
  | [], _, best => best
  | c :: t, pos, best => lastSlashAux t (pos + 1) (if c = '/' then pos else best)

/-- Index of the last slash in a path (0 when there is none, or when the
only slash is the leading one). -/
def lastSlashIdx (p : FPath) : Nat := lastSlashAux p 0 0

/-- The parent portion of a path as the C code computes it: the first
lastSlashIdx characters. -/
def parentOf (p : FPath) : FPath := p.take (lastSlashIdx p)

/-- The process environment: identity of the invoking process, the group
and user databases, the source I/O block size, and failure injection for
the syscalls whose failure the filesystem state does not determine. -/
structure Env where
  uid : Nat
  gid : Nat
  grpDb : List (FPath × Nat)
  pwdDb : List (FPath × Nat)
  blk : Nat
  lstatErr : Bool
  readErrAfter : Option Nat
  writeErrAfter : Option Nat
  chmodErr : Bool
  chownErr : Bool

/-- Name lookup in an identity database (getgrnam / getpwnam). -/
def lookupDb : List (FPath × Nat) → FPath → Option Nat
  | [], _ => none
  | (n, v) :: t, s => if n = s then some v else lookupDb t s

/-- True when the parent component of a path exists as a directory (an
empty parent component means the working directory or the root, which
always exists). -/
def parentOkB (fs : Fs) (p : FPath) : Bool :=
  let par := parentOf p
  if par.isEmpty then true
  else
    match fsFind fs par with
    | some (.dir _ _ _) => true
    | _ => false

/-- mkdir(2): fails with EEXIST when the path already has an entry, with
ENOTDIR when the parent component exists but is not a directory, and with
ENOENT when the parent component is missing; otherwise creates a
directory (nominal mode 0777, install.c line 74; umask abstracted). -/
def mkdirE (env : Env) (fs : Fs) (p : FPath) : Fs × Option Errno :=
  if (fsFind fs p).isSome then (fs, some .eexist)
  else if parentOkB fs p then (fsSet fs p (.dir 0o777 env.uid env.gid), none)
  else if (fsFind fs (parentOf p)).isSome then (fs, some .enotdir)
  else (fs, some .enoent)

/-- The recursive parent-creation routine mkparents (install.c lines
49-82), with explicit fuel standing in for the structural recursion on
the strictly shorter parent path. It returns the updated filesystem and
the trace of attempted mkdir calls with their outcomes. The C function
ignores the return value of every mkdir call (line 74); its only failure
path is malloc failure, which the model assumes does not happen, so the
modelled routine always succeeds. -/
def mkparentsF (env : Env) : Nat → Fs → FPath → Fs × List (FPath × Option Errno)
  | 0, fs, _ => (fs, [])
  | fuel + 1, fs, p =>
    let l := lastSlashIdx p
    if l = 0 then (fs, [])
    else
      let buf := p.take l
      let r1 := mkparentsF env fuel fs buf
      let r2 := mkdirE env r1.1 buf
      (r2.1, r1.2 ++ [(buf, r2.2)])

/-- mkparents with the fuel instantiated to the path length, which the
lemmas below show is always sufficient. -/
def mkparents (env : Env) (fs : Fs) (p : FPath) : Fs × List (FPath × Option Errno) :=
  mkparentsF env p.length fs p

/-! ### strtoul and the numeric argument handlers -/

/-- Modulus of the C type unsigned long (64 bits on the target ABI). -/
def ulMod : Nat := 2 ^ 64

/-- Modulus of the C types uid_t, gid_t and mode_t (32 bits on the
target ABI). -/
def idMod : Nat := 2 ^ 32

/-- isspace in the C locale. -/
def isSpaceC (c : Char) : Bool :=
  c = ' ' || c = '\t' || c = '\n' || c = '\r' || c = '\x0b' || c = '\x0c'

/-- Numeric value of a digit character, or 99 for a non-digit (so that
the bound test against the base rejects it). -/
def digitVal (c : Char) : Nat :=
  if '0' ≤ c && c ≤ '9' then c.toNat - 48
  else if 'a' ≤ c && c ≤ 'f' then c.toNat - 87
  else if 'A' ≤ c && c ≤ 'F' then c.toNat - 55
  else 99

/-- True when the character is a digit of the given base. -/
def isDigitB (b : Nat) (c : Char) : Bool := digitVal c < b

/-- Result of strtoul: the value it returns, the suffix at the end
pointer, and whether errno was set to ERANGE. -/
structure UlRes where
  val : Nat
  rest : List Char
  erange : Bool
  deriving DecidableEq

/-- The digit-consuming core of strtoul in base b, applied to the text t
after whitespace, sign and base prefix handling; s is the original
string, to which the end pointer falls back when no conversion is
performed. On overflow strtoul returns ULONG_MAX and sets ERANGE; a
leading minus sign makes it return the negation of the value modulo
2 ^ 64. -/
def strtoulCore (b : Nat) (t : List Char) (s : List Char) (neg : Bool) : UlRes :=
  let ds := t.takeWhile (isDigitB b)
  let rest := t.dropWhile (isDigitB b)
  if ds.isEmpty then ⟨0, s, false⟩
  else
    let m := ds.foldl (fun a c => a * b + digitVal c) 0
    if m ≥ ulMod then ⟨ulMod - 1, rest, true⟩
    else ⟨if neg then (ulMod - m) % ulMod else m, rest, false⟩

/-- strtoul(3) for the two bases the program uses (8 for -m and 0 for
-g / -o): skip whitespace, handle one optional sign, and in base 0
dispatch on a 0x / 0X prefix (hexadecimal, provided a hexadecimal digit
follows), a leading 0 (octal), or anything else (decimal). -/
def strtoulC (s : List Char) (base : Nat) : UlRes :=
  let t := s.dropWhile isSpaceC
  let neg := t.head? = some '-'
  let t2 := if t.head? = some '-' || t.head? = some '+' then t.tail else t
  if base = 0 then
    match t2 with
    | '0' :: c :: r =>
      if c = 'x' || c = 'X' then
        match r with
        | d :: _ =>
          if isDigitB 16 d then strtoulCore 16 r s neg
          else ⟨0, c :: r, false⟩
        | [] => ⟨0, c :: r, false⟩
      else strtoulCore 8 ('0' :: c :: r) s neg
    | '0' :: [] => strtoulCore 8 ['0'] s neg
    | _ => strtoulCore 10 t2 s neg
  else strtoulCore base t2 s neg

/-- The -m handler (install.c lines 130-136): parse the argument as an
octal unsigned long, reject it when errno was set or the end pointer is
not at the terminating NUL, and store the value into the 32-bit mode_t
variable. none means the fatal invalid-mode error. -/
def parseMode (s : FPath) : Option Nat :=
  let r := strtoulC s 8
  if r.erange || !r.rest.isEmpty then none
  else some (r.val % idMod)

/-- The -g / -o handler (install.c lines 107-122 and 137-152): attempt
strtoul in base 0 first; when errno was set or the end pointer is not at
the terminating NUL, fall back to a database name lookup; the accepted
numeric value is stored into the 32-bit gid_t / uid_t variable. none
means the fatal invalid group / invalid user error. -/
def resolveId (db : List (FPath × Nat)) (s : FPath) : Option Nat :=
  let r := strtoulC s 0
  if r.erange || !r.rest.isEmpty then
    match lookupDb db s with
    | some v => some v
    | none => none
  else some (r.val % idMod)

/-! ### The argument parser (the getopt loop, install.c lines 84-166) -/

/-- The distinct fatal diagnostics the program can print (section 7 of
the spec); dirCreateFail is the message of install.c line 180, reachable
only through malloc failure inside mkparents, which the model assumes
away. -/
inductive FatalMsg where
  | invalidGroup
  | invalidUser
  | invalidMode
  | invalidModeRange
  | missingArg
  | invalidOpt
  | argCount
  | dirCreateFail
  | symlinkFail
  | lstatFail
  | srcNoExist
  | srcIsDir
  | srcNotReg
  | openSrcFail
  | tmpCreateFail
  | writeFail
  | chmodFail
  | chownFail
  | renameFail
  deriving DecidableEq

/-- The resolved install request (section 3 of the spec). -/
structure Cfg where
  mkdirp : Bool
  symbolic : Bool
  owner : Nat
  group : Nat
  mode : Nat
  src : FPath
  dst : FPath
  deriving DecidableEq

/-- The configuration before any option is seen: owner and group default
to the invoking process identity and the mode to 0755 (install.c lines
89-91). -/
def initCfg (env : Env) : Cfg :=
  ⟨false, false, env.uid, env.gid, 0o755, [], []⟩

/-- Apply an option that takes an argument (g, m or o) to the
configuration. -/
def applyOpt (env : Env) (c : Cfg) (ch : Char) (arg : FPath) : Except FatalMsg Cfg :=
  if ch = 'g' then
    match resolveId env.grpDb arg with
    | some v => .ok { c with group := v }
    | none => .error .invalidGroup
  else if ch = 'o' then
    match resolveId env.pwdDb arg with
    | some v => .ok { c with owner := v }
    | none => .error .invalidUser
  else
    match parseMode arg with
    | some v => .ok { c with mode := v }
    | none => .error .invalidMode

/-- Outcome of processing one clustered option argument. -/
inductive ClustRes where
  | chelp
  | cfatal (m : FatalMsg)
  | cdone (c : Cfg)
  | cneed (ch : Char) (c : Cfg)

/-- Process the characters of one option cluster, as getopt with the
option string ":Dg:hlm:o:r" drives the switch of install.c lines
102-159: D and l set flags, h prints help and exits 0, g / m / o take
the remainder of the cluster as their argument (or request the next
argv entry when the cluster ends), and every other character - including
r, which is in the option string but has no case, and falls into the
default branch - is a fatal invalid-option error. -/
def procCluster (env : Env) (c : Cfg) : List Char → ClustRes
  | [] => .cdone c
  | ch :: chs =>
    if ch = 'D' then procCluster env { c with mkdirp := true } chs
    else if ch = 'l' then procCluster env { c with symbolic := true } chs
    else if ch = 'h' then .chelp
    else if ch = 'g' || ch = 'm' || ch = 'o' then
      match chs with
      | [] => .cneed ch c
      | _ :: _ =>
        match applyOpt env c ch chs with
        | .ok c2 => .cdone c2
        | .error m => .cfatal m
    else .cfatal .invalidOpt

/-- Outcome of the whole option scan. -/
inductive OptRes where
  | help
  | fatal (m : FatalMsg)
  | ok (c : Cfg) (pos : List FPath)
  deriving DecidableEq

/-- The getopt loop in POSIX (non-permuting) mode: arguments are scanned
left to right; a lone dash or any argument not starting with a dash ends
the scan as the first positional argument; the argument consisting of
two dashes ends the scan and is consumed; an option requiring an
argument at the end of its cluster consumes the next argv entry
unconditionally, and its absence is the fatal missing-argument error
(the leading colon of the option string, install.c lines 153-155). -/
def scanA (env : Env) (c : Cfg) : List FPath → OptRes
  | [] => .ok c []
  | a :: rest =>
    match a with
    | x :: ch :: chs =>
      if x = '-' then
        if ch = '-' && chs.isEmpty then .ok c rest
        else
          match procCluster env c (ch :: chs) with
          | .chelp => .help
          | .cfatal m => .fatal m
          | .cdone c2 => scanA env c2 rest
          | .cneed och c2 =>
            match rest with
            | [] => .fatal .missingArg
            | b :: rest2 =>
              match applyOpt env c2 och b with
              | .ok c3 => scanA env c3 rest2
              | .error m => .fatal m
      else .ok c ((x :: ch :: chs) :: rest)
    | _ => .ok c (a :: rest)

/-- Result of argument parsing. -/
inductive ParseRes where
  | phelp
  | pfatal (m : FatalMsg)
  | pok (c : Cfg)
  deriving DecidableEq

/-- The full argument-parsing phase: run the option scan over argv past
the program name, then require exactly two positional arguments
(install.c line 162) and a mode within 0..07777 (line 165, comparing
the already truncated 32-bit mode_t value). -/
def parseArgs (env : Env) (args : List FPath) : ParseRes :=
  match scanA env (initCfg env) args with
  | .help => .phelp
  | .fatal m => .pfatal m
  | .ok c pos =>
    match pos with
    | [s, d] =>
      if c.mode > 0o7777 then .pfatal .invalidModeRange
      else .pok { c with src := s, dst := d }
    | _ => .pfatal .argCount

/-! ### The installer (install.c lines 168-242) -/

/-- The temporary path: the destination path with the .tmp suffix
appended (install.c line 175). -/
def tmpOf (c : Cfg) : FPath := c.dst ++ ('.' :: 't' :: 'm' :: 'p' :: [])

/-- The optional parent-creation step (install.c line 179); the fatal
branch of lines 180-181 is unreachable because mkparents only fails on
malloc failure, which the model assumes away. -/
def dirPhase (c : Cfg) (env : Env) (fs : Fs) : Fs :=
  if c.mkdirp then (mkparents env fs c.dst).1 else fs

/-- Resolve a path through symbolic links to the path of a non-symlink
entry, with the kernel's loop bound as fuel; none models ENOENT or
ELOOP. -/
def resolveEntry (fs : Fs) : Nat → FPath → Option FPath
  | 0, _ => none
  | fuel + 1, p =>
    match fsFind fs p with
    | none => none
    | some (.symlink t _ _) => resolveEntry fs fuel t
    | some _ => some p

/-- What open(src, O_RDONLY) yields: the content when the path resolves
to a regular file, or an empty byte stream whose reads fail when it
resolves to a directory (opening a directory read-only succeeds; reading
from it fails with EISDIR, which the copy loop treats as end of
stream). -/
structure SrcHandle where
  bytes : List Nat
  isdir : Bool
  deriving DecidableEq

/-- open(2) of the source for reading, following symbolic links. -/
def openSrc (fs : Fs) : Nat → FPath → Option SrcHandle
  | 0, _ => none
  | fuel + 1, p =>
    match fsFind fs p with
    | none => none
    | some (.file cont _ _ _) => some ⟨cont, false⟩
    | some (.dir _ _ _) => some ⟨[], true⟩
    | some (.symlink t _ _) => openSrc fs fuel t
    | some .other => none

/-- Result of open(tmp, O_RDWR | O_CREAT, 0600): the path of the file
entry actually opened (after following symbolic links), its existing
content and metadata, and the filesystem with the entry created when it
was missing. Note that the flags include neither O_TRUNC nor O_EXCL, so
an existing file is opened as is. -/
structure OpenRes where
  q : FPath
  content : List Nat
  fmode : Nat
  fowner : Nat
  fgroup : Nat
  fs : Fs
  deriving DecidableEq

/-- open(2) of the temporary path with O_RDWR | O_CREAT and mode 0600
(install.c line 215; umask abstracted): create the file when the path
is free and its parent directory exists; open an existing regular file
without truncation; follow an existing symbolic link; fail on a
directory or any other object, or when the parent is missing. -/
def openCreate (env : Env) (fs : Fs) : Nat → FPath → Option OpenRes
  | 0, _ => none
  | fuel + 1, p =>
    match fsFind fs p with
    | none =>
      if parentOkB fs p then
        some ⟨p, [], 0o600, env.uid, env.gid, fsSet fs p (.file [] 0o600 env.uid env.gid)⟩
      else none
    | some (.file cont m o g) => some ⟨p, cont, m, o, g, fs⟩
    | some (.symlink t _ _) => openCreate env fs fuel t
    | some _ => none

/-- symlink(2): create a symbolic link whose target text is the literal
first argument; fails when anything already exists at the link path or
its parent directory is missing (install.c line 186). -/
def symlinkE (env : Env) (fs : Fs) (target linkp : FPath) : Option Fs :=
  if (fsFind fs linkp).isSome then none
  else if parentOkB fs linkp then some (fsSet fs linkp (.symlink target env.uid env.gid))
  else none

/-- Replace the permission bits of an object; a symbolic link's bits are
fixed (chmod never operates on a link entry, since path resolution
follows links). -/
def setMode : FsObj → Nat → FsObj
  | .file cont _ o g, m => .file cont m o g
  | .dir _ o g, m => .dir m o g
  | .symlink t o g, _ => .symlink t o g
  | .other, _ => .other

/-- Replace the owner and group of an object. -/
def setOwn : FsObj → Nat → Nat → FsObj
  | .file cont m _ _, ow, gr => .file cont m ow gr
  | .dir m _ _, ow, gr => .dir m ow gr
  | .symlink t _ _, ow, gr => .symlink t ow gr
  | .other, _, _ => .other

/-- chmod(2) (install.c line 233): follows symbolic links, so the bits
are applied to the object the path resolves to; fails when resolution
fails or when the environment injects a failure. -/
def chmodE (env : Env) (fs : Fs) (p : FPath) (m : Nat) : Except FatalMsg Fs :=
  if env.chmodErr then .error .chmodFail
  else
    match resolveEntry fs 40 p with
    | none => .error .chmodFail
    | some q =>
      match fsFind fs q with
      | none => .error .chmodFail
      | some o => .ok (fsSet fs q (setMode o m))

/-- lchown(2) (install.c line 236): operates on the entry itself without
following a final symbolic link. -/
def lchownE (env : Env) (fs : Fs) (p : FPath) (ow gr : Nat) : Except FatalMsg Fs :=
  if env.chownErr then .error .chownFail
  else
    match fsFind fs p with
    | none => .error .chownFail
    | some o => .ok (fsSet fs p (setOwn o ow gr))

/-- rename(2) (install.c line 239): atomically moves the entry at the
first path onto the second, replacing a non-directory entry there;
fails when the first path is missing or the second is a directory. -/
def renameE (fs : Fs) (p q : FPath) : Except FatalMsg Fs :=
  match fsFind fs p with
  | none => .error .renameFail
  | some o =>
    match fsFind fs q with
    | some (.dir _ _ _) => .error .renameFail
    | _ => .ok (fsSet (fsDel fs p) q o)

/-- The copy loop of install.c lines 224-229, with fuel standing in for
the termination argument (each continuing iteration consumes at least
one source byte): read up to blk bytes; a read returning 0 (end of
stream) or -1 (the injected read error, after re successful reads) ends
the loop with success; a write failure (after we successful writes) is
fatal; written accumulates the bytes written so far and is also
returned on the fatal path, since the writes that succeeded persist. -/
def copyLoopF (blk : Nat) (re we : Option Nat) :
    Nat → Nat → List Nat → List Nat → Except (List Nat) (List Nat)
  | 0, _, _, w => .ok w
  | fuel + 1, n, rem, w =>
    if re = some n then .ok w
    else
      let chunk := rem.take blk
      if chunk.isEmpty then .ok w
      else if we = some n then .error w
      else copyLoopF blk re we fuel (n + 1) (rem.drop blk) (w ++ chunk)

/-- True when lstat reports a regular file or a symbolic link
(install.c line 201). -/
def lstatIsRegOrLnk : FsObj → Bool
  | .file _ _ _ _ => true
  | .symlink _ _ _ => true
  | _ => false

/-- True when lstat reports a directory (install.c line 202). -/
def lstatIsDir : FsObj → Bool
  | .dir _ _ _ => true
  | _ => false

/-- The branch that produces the temporary file (install.c lines
184-230): either a symlink whose target text is the literal source path
argument, or the copy path - lstat the source without following a final
link, require a regular file or symlink, open the source (following
links), open or create the temporary file (without truncation), and run
the copy loop. On error it returns the fatal message together with the
filesystem at that point. -/
def mkTempPhase (c : Cfg) (env : Env) (fs1 : Fs) : Except (FatalMsg × Fs) Fs :=
  let tmp := tmpOf c
  if c.symbolic then
    match symlinkE env fs1 c.src tmp with
    | some fs2 => .ok fs2
    | none => .error (.symlinkFail, fs1)
  else
    if env.lstatErr then .error (.lstatFail, fs1)
    else
      match fsFind fs1 c.src with
      | none => .error (.srcNoExist, fs1)
      | some st =>
        if lstatIsRegOrLnk st then
          match openSrc fs1 40 c.src with
          | none => .error (.openSrcFail, fs1)
          | some h =>
            match openCreate env fs1 40 tmp with
            | none => .error (.tmpCreateFail, fs1)
            | some r =>
              let effRe := if h.isdir then some 0 else env.readErrAfter
              match copyLoopF env.blk effRe env.writeErrAfter (h.bytes.length + 1) 0 h.bytes [] with
              | .error w =>
                .error (.writeFail, fsSet r.fs r.q (.file (w ++ r.content.drop w.length) r.fmode r.fowner r.fgroup))
              | .ok w =>
                .ok (fsSet r.fs r.q (.file (w ++ r.content.drop w.length) r.fmode r.fowner r.fgroup))
        else
          if lstatIsDir st then .error (.srcIsDir, fs1)
          else .error (.srcNotReg, fs1)

/-- Observable outcome of one invocation: the exit status, which fatal
diagnostic (if any) was printed to the error stream, whether the usage
text was printed to standard output, and the final filesystem. -/
structure Result where
  exit : Nat
  ftag : Option FatalMsg
  help : Bool
  fs : Fs
  deriving DecidableEq

/-- The final step of main: the atomic rename of install.c line 239,
fatal on failure, then exit status 0. -/
def install4 (c : Cfg) (fs4 : Fs) : Result :=
  match renameE fs4 (tmpOf c) c.dst with
  | .error m => ⟨1, some m, false, fs4⟩
  | .ok fs5 => ⟨0, none, false, fs5⟩

/-- lchown of the temporary path (install.c line 236), fatal on
failure, then the rename step. -/
def install3 (c : Cfg) (env : Env) (fs3 : Fs) : Result :=
  match lchownE env fs3 (tmpOf c) c.owner c.group with
  | .error m => ⟨1, some m, false, fs3⟩
  | .ok fs4 => install4 c fs4

/-- chmod of the temporary path (install.c line 233), fatal on failure,
then the lchown step. -/
def install2 (c : Cfg) (env : Env) (fs2 : Fs) : Result :=
  match chmodE env fs2 (tmpOf c) c.mode with
  | .error m => ⟨1, some m, false, fs2⟩
  | .ok fs3 => install3 c env fs3

/-- The post-parse part of main (install.c lines 168-242): optional
parent creation, the symlink-or-copy phase, then chmod, lchown and the
final rename, each fatal on failure, and exit status 0 at the end. -/
def install (c : Cfg) (env : Env) (fs : Fs) : Result :=
  match mkTempPhase c env (dirPhase c env fs) with
  | .error e => ⟨1, some e.1, false, e.2⟩
  | .ok fs2 => install2 c env fs2

/-- One whole invocation of the program: args is argv without the
program name (argv[0] only feeds the usage text). A parse-stage exit
(help or fatal) touches no filesystem state. -/
def runMain (args : List FPath) (env : Env) (fs : Fs) : Result :=
  match parseArgs env args with
  | .phelp => ⟨0, none, true, fs⟩
  | .pfatal m => ⟨1, some m, false, fs⟩
  | .pok c => install c env fs

/-- The permission bits an object reports: the stored bits of a file or
directory, the fixed symlink bits 0777 of the target platform for a
symbolic link. -/
def objModeBits : FsObj → Nat
  | .file _ m _ _ => m
  | .dir m _ _ => m
  | .symlink _ _ _ => 0o777
  | .other => 0

/-- True when the entry at a path is a symbolic link. -/
def isLinkAt (fs : Fs) (p : FPath) : Bool :=
  match fsFind fs p with
  | some (.symlink _ _ _) => true
  | _ => false

/-- True when the entry at a path is a directory. -/
def isDirAt (fs : Fs) (p : FPath) : Bool :=
  match fsFind fs p with
  | some (.dir _ _ _) => true
  | _ => false

/-! ### Concrete data used by the witness and counterexample runs -/

/-- A benign environment: identity 0/0, empty identity databases, block
size 4096, and no injected syscall failures. -/
def wEnv : Env := ⟨0, 0, [], [], 4096, false, none, none, false, false⟩

/-- The benign environment with a chmod failure injected. -/
def wEnvCh : Env := ⟨0, 0, [], [], 4096, false, none, none, true, false⟩

/-- Block size 2 with a source read error injected after one successful
chunk read. -/
def wEnvRe : Env := ⟨0, 0, [], [], 2, false, some 1, none, false, false⟩

/-- Block size 2 with a write error injected after one successful chunk
write. -/
def wEnvWe : Env := ⟨0, 0, [], [], 2, false, none, some 1, false, false⟩

/-- A filesystem where a symbolic link pointing at the destination d
already sits at the temporary path d.tmp, beside a regular source s and
an existing destination file d. -/
def wFsL : Fs :=
  [(['s'], .file [7, 8] 0o644 0 0),
   (['d'], .file [1, 2, 3] 0o644 0 0),
   (['d', '.', 't', 'm', 'p'], .symlink ['d'] 0 0)]

/-- The resolved request of a symbolic-link invocation: link d to the
(nonexistent) literal target nx with the default mode. -/
def wCfgL : Cfg := ⟨false, true, 0, 0, 0o755, ['n', 'x'], ['d']⟩

/-- A filesystem holding one two-byte source file s. -/
def wFsS : Fs := [(['s'], .file [3, 4] 0o644 0 0)]

/-- A filesystem holding a three-byte source file s. -/
def wFsS3 : Fs := [(['s'], .file [3, 4, 5] 0o644 0 0)]

/-- A filesystem where the temporary path d.tmp already holds a
six-byte file, longer than the two-byte source s. -/
def wFsT : Fs :=
  [(['s'], .file [3, 4] 0o644 0 0),
   (['d', '.', 't', 'm', 'p'], .file [9, 9, 9, 9, 9, 9] 0o600 0 0)]

/-- A filesystem where path a is a regular file, so that creating the
directory a/b fails with ENOTDIR, together with a valid source s. -/
def wFsA : Fs := [(['a'], .file [] 0o644 0 0), (['s'], .file [1] 0o644 0 0)]

/-- The resolved request of a plain invocation: copy s to d with the
default mode 0755 and identity 0/0. -/
def wCfg : Cfg := ⟨false, false, 0, 0, 0o755, ['s'], ['d']⟩

/-! ### Lemmas about the path scan and mkparents -/

@[simp] theorem fsFind_nil (p : FPath) : fsFind [] p = none := rfl

@[simp] theorem fsFind_fsSet_self (fs : Fs) (p : FPath) (o : FsObj) :
    fsFind (fsSet fs p o) p = some o := by
  simp [fsSet, fsFind]

theorem fsFind_fsDel (fs : Fs) (p q : FPath) :
    fsFind (fsDel fs p) q = if p = q then none else fsFind fs q := by
  induction fs with
  | nil => simp [fsDel, fsFind]
  | cons e t ih =>
    obtain ⟨k, o⟩ := e
    by_cases hkp : k = p
    · subst hkp
      by_cases hpq : k = q
      · subst hpq
        simp [fsDel, fsFind, ih]
      · simp [fsDel, fsFind, hpq, ih]
    · by_cases hkq : k = q
      · subst hkq
        have hpq : ¬ p = k := fun h => hkp h.symm
        simp [fsDel, fsFind, hkp, hpq]
      · simp [fsDel, fsFind, hkp, hkq, ih]

@[simp] theorem fsFind_fsDel_self (fs : Fs) (p : FPath) :
    fsFind (fsDel fs p) p = none := by
  simp [fsFind_fsDel]

theorem fsFind_fsDel_ne (fs : Fs) (p q : FPath) (h : p ≠ q) :
    fsFind (fsDel fs p) q = fsFind fs q := by
  simp [fsFind_fsDel, h]

theorem fsFind_fsSet_ne (fs : Fs) (p q : FPath) (o : FsObj) (h : p ≠ q) :
    fsFind (fsSet fs p o) q = fsFind fs q := by
  have h2 : ¬ p = q := h
  simp [fsSet, fsFind, fun hq : p = q => h hq, fsFind_fsDel, h2]

theorem fsDel_fsDel_self (fs : Fs) (p : FPath) :
    fsDel (fsDel fs p) p = fsDel fs p := by
  induction fs with
  | nil => simp [fsDel]
  | cons e t ih =>
    obtain ⟨k, o⟩ := e
    by_cases hkp : k = p <;> simp [fsDel, hkp, ih]

theorem fsSet_fsSet (fs : Fs) (p : FPath) (a b : FsObj) :
    fsSet (fsSet fs p a) p b = fsSet fs p b := by
  simp [fsSet, fsDel, fsDel_fsDel_self]

theorem isLinkAt_false (fs : Fs) (p : FPath) (h : isLinkAt fs p = false) :
    ∀ t a b, fsFind fs p ≠ some (.symlink t a b) := by
  intro t a b hc
  unfold isLinkAt at h
  rw [hc] at h
  exact absurd h (by simp)

theorem isDirAt_false (fs : Fs) (p : FPath) (h : isDirAt fs p = false) :
    ∀ m o g, fsFind fs p ≠ some (.dir m o g) := by
  intro m o g hc
  unfold isDirAt at h
  rw [hc] at h
  exact absurd h (by simp)

theorem lastSlashAux_lt_or_eq (t : List Char) (pos best : Nat) :
    lastSlashAux t pos best < pos + t.length ∨ lastSlashAux t pos best = best := by
  induction t generalizing pos best with
  | nil => right; rfl
  | cons c t ih =>
    rcases ih (pos + 1) (if c = '/' then pos else best) with h | h
    · left
      show lastSlashAux t (pos + 1) (if c = '/' then pos else best) < pos + (c :: t).length
      simp only [List.length_cons]
      omega
    · by_cases hc : c = '/'
      · left
        have he : lastSlashAux (c :: t) pos best = pos := by
          simpa [lastSlashAux, hc] using h
        rw [he]
        simp [Nat.lt_add_of_pos_right]
      · right
        simpa [lastSlashAux, hc] using h

theorem lastSlashIdx_lt (p : FPath) (h : lastSlashIdx p ≠ 0) : lastSlashIdx p < p.length := by
  rcases lastSlashAux_lt_or_eq p 0 0 with h2 | h2
  · simpa using h2
  · exact absurd h2 h

theorem lastSlashAux_noSlash (t : List Char) (pos best : Nat)
    (h : ∀ c ∈ t, c ≠ '/') : lastSlashAux t pos best = best := by
  induction t generalizing pos best with
  | nil => rfl
  | cons c t ih =>
    have hc : c ≠ '/' := h c (by simp)
    have := ih (pos + 1) (if c = '/' then pos else best) (fun d hd => h d (by simp [hd]))
    simpa [lastSlashAux, hc] using this

theorem lastSlashIdx_noSlash (p : FPath) (h : ∀ c ∈ p, c ≠ '/') : lastSlashIdx p = 0 :=
  lastSlashAux_noSlash p 0 0 h

theorem ne_of_length_lt {p q : FPath} (h : p.length < q.length) : p ≠ q := by
  intro he
  subst he
  exact Nat.lt_irrefl _ h

theorem mkdirE_find_other (env : Env) (fs : Fs) (b q : FPath) (h : b ≠ q) :
    fsFind (mkdirE env fs b).1 q = fsFind fs q := by
  unfold mkdirE
  split
  · rfl
  · split
    · simp [fsFind_fsSet_ne fs b q _ h]
    · split <;> rfl

theorem mkdirE_find_some (env : Env) (fs : Fs) (b q : FPath) (o : FsObj)
    (h : fsFind fs q = some o) : fsFind (mkdirE env fs b).1 q = some o := by
  by_cases hbq : b = q
  · subst hbq
    unfold mkdirE
    have : (fsFind fs b).isSome := by simp [h]
    simp [this, h]
  · rw [mkdirE_find_other env fs b q hbq]
    exact h

theorem mkparentsF_of_lzero (env : Env) (fuel : Nat) (fs : Fs) (p : FPath)
    (h : lastSlashIdx p = 0) : mkparentsF env fuel fs p = (fs, []) := by
  cases fuel with
  | zero => rfl
  | succ f => simp [mkparentsF, h]

theorem mkparentsF_congr (env : Env) (f1 : Nat) :
    ∀ (f2 : Nat) (fs : Fs) (p : FPath), p.length ≤ f1 → p.length ≤ f2 →
    mkparentsF env f1 fs p = mkparentsF env f2 fs p := by
  induction f1 with
  | zero =>
    intro f2 fs p h1 _
    have hp : p = [] := List.length_eq_zero.mp (Nat.le_zero.mp h1)
    subst hp
    rw [mkparentsF_of_lzero env 0 fs [] rfl, mkparentsF_of_lzero env f2 fs [] rfl]
  | succ f ih =>
    intro f2 fs p h1 h2
    cases f2 with
    | zero =>
      have hp : p = [] := List.length_eq_zero.mp (Nat.le_zero.mp h2)
      subst hp
      rw [mkparentsF_of_lzero env _ fs [] rfl, mkparentsF_of_lzero env 0 fs [] rfl]
    | succ g =>
      by_cases hl : lastSlashIdx p = 0
      · rw [mkparentsF_of_lzero env _ fs p hl, mkparentsF_of_lzero env _ fs p hl]
      · have hlt : lastSlashIdx p < p.length := lastSlashIdx_lt p hl
        have hbuf : (p.take (lastSlashIdx p)).length = lastSlashIdx p := by
          simp [List.length_take]
          omega
        have hf : (p.take (lastSlashIdx p)).length ≤ f := by omega
        have hg : (p.take (lastSlashIdx p)).length ≤ g := by omega
        simp only [mkparentsF, hl, if_false]
        rw [ih g fs (p.take (lastSlashIdx p)) hf hg]

theorem mkparentsF_find_ge (env : Env) (fuel : Nat) :
    ∀ (fs : Fs) (p q : FPath), p.length ≤ fuel → p.length ≤ q.length →
    fsFind (mkparentsF env fuel fs p).1 q = fsFind fs q := by
  induction fuel with
  | zero => intro fs p q _ _; rfl
  | succ f ih =>
    intro fs p q h1 h2
    by_cases hl : lastSlashIdx p = 0
    · rw [mkparentsF_of_lzero env _ fs p hl]
    · have hlt : lastSlashIdx p < p.length := lastSlashIdx_lt p hl
      have hbuf : (p.take (lastSlashIdx p)).length = lastSlashIdx p := by
        simp [List.length_take]
        omega
      simp only [mkparentsF, hl, if_false]
      have hne : p.take (lastSlashIdx p) ≠ q := by
        apply ne_of_length_lt
        omega
      rw [mkdirE_find_other env _ _ q hne]
      exact ih fs (p.take (lastSlashIdx p)) q (by omega) (by omega)

theorem mkparentsF_find_some (env : Env) (fuel : Nat) :
    ∀ (fs : Fs) (p q : FPath) (o : FsObj), fsFind fs q = some o →
    fsFind (mkparentsF env fuel fs p).1 q = some o := by
  induction fuel with
  | zero => intro fs p q o h; exact h
  | succ f ih =>
    intro fs p q o h
    by_cases hl : lastSlashIdx p = 0
    · rw [mkparentsF_of_lzero env _ fs p hl]; exact h
    · simp only [mkparentsF, hl, if_false]
      exact mkdirE_find_some env _ _ q o (ih fs (p.take (lastSlashIdx p)) q o h)

theorem mkparents_find_ge (env : Env) (fs : Fs) (p q : FPath) (h : p.length ≤ q.length) :
    fsFind (mkparents env fs p).1 q = fsFind fs q :=
  mkparentsF_find_ge env p.length fs p q (Nat.le_refl _) h

theorem mkparents_find_some (env : Env) (fs : Fs) (p q : FPath) (o : FsObj)
    (h : fsFind fs q = some o) : fsFind (mkparents env fs p).1 q = some o :=
  mkparentsF_find_some env p.length fs p q o h

theorem mkparentsF_ne_nil (env : Env) (f : Nat) (fs : Fs) (q : FPath)
    (hl : lastSlashIdx q ≠ 0) (hf : q.length ≤ f) : (mkparentsF env f fs q).2 ≠ [] := by
  cases f with
  | zero =>
    have hlt := lastSlashIdx_lt q hl
    omega
  | succ f => simp [mkparentsF, hl]

theorem mkparentsF_chain (env : Env) (fuel : Nat) :
    ∀ (fs : Fs) (p : FPath), p.length ≤ fuel →
    List.Chain' (fun a b => a = parentOf b) ((mkparentsF env fuel fs p).2.map Prod.fst) ∧
    (∀ h0, ((mkparentsF env fuel fs p).2.map Prod.fst).head? = some h0 → lastSlashIdx h0 = 0) ∧
    (lastSlashIdx p ≠ 0 →
      ((mkparentsF env fuel fs p).2.map Prod.fst).getLast? = some (parentOf p)) := by
  induction fuel with
  | zero =>
    intro fs p hf
    refine ⟨by simp [mkparentsF], by simp [mkparentsF], fun hl => ?_⟩
    have hlt := lastSlashIdx_lt p hl
    omega
  | succ f ih =>
    intro fs p hf
    by_cases hl : lastSlashIdx p = 0
    · refine ⟨?_, ?_, fun hc => absurd hl hc⟩ <;>
        simp [mkparentsF_of_lzero env _ fs p hl]
    · have hlt : lastSlashIdx p < p.length := lastSlashIdx_lt p hl
      have hbuf : (p.take (lastSlashIdx p)).length = lastSlashIdx p := by
        simp [List.length_take]
        omega
      have hbf : (p.take (lastSlashIdx p)).length ≤ f := by omega
      obtain ⟨ihc, ihh, ihl⟩ := ih fs (p.take (lastSlashIdx p)) hbf
      have heq : (mkparentsF env (f + 1) fs p).2
          = (mkparentsF env f fs (p.take (lastSlashIdx p))).2
            ++ [(p.take (lastSlashIdx p),
                 (mkdirE env (mkparentsF env f fs (p.take (lastSlashIdx p))).1
                   (p.take (lastSlashIdx p))).2)] := by
        simp [mkparentsF, hl]
      rw [heq]
      rw [List.map_append]
      refine ⟨?_, ?_, fun _ => ?_⟩
      · rw [List.chain'_append]
        refine ⟨ihc, by simp, ?_⟩
        intro x hx y hy
        simp at hy
        subst hy
        by_cases hbl : lastSlashIdx (p.take (lastSlashIdx p)) = 0
        · rw [mkparentsF_of_lzero env f fs _ hbl] at hx
          simp at hx
        · rw [ihl hbl] at hx
          simp at hx
          subst hx
          rfl
      · intro h0 hh0
        by_cases hbl : lastSlashIdx (p.take (lastSlashIdx p)) = 0
        · rw [mkparentsF_of_lzero env f fs _ hbl] at hh0
          simp at hh0
          subst hh0
          exact hbl
        · have hne := mkparentsF_ne_nil env f fs (p.take (lastSlashIdx p)) hbl hbf
          rcases hmm : (mkparentsF env f fs (p.take (lastSlashIdx p))).2 with _ | ⟨a, t⟩
          · exact absurd hmm hne
          · rw [hmm] at hh0
            simp at hh0
            refine ihh h0 ?_
            rw [hmm]
            simp [hh0]
      · simp only [List.map_cons, List.map_nil]
        rw [List.getLast?_concat]
        rfl

/-- The structural theorem about mkparents: trivial return for a path
with an empty parent component, the recursion equation for the others,
and the bottom-up ordering of the attempted mkdir calls. -/
theorem mkparents_chain (env : Env) (fs : Fs) (p : FPath) :
    List.Chain' (fun a b => a = parentOf b) ((mkparents env fs p).2.map Prod.fst) ∧
    (∀ h0, ((mkparents env fs p).2.map Prod.fst).head? = some h0 → lastSlashIdx h0 = 0) ∧
    (lastSlashIdx p ≠ 0 →
      ((mkparents env fs p).2.map Prod.fst).getLast? = some (parentOf p)) :=
  mkparentsF_chain env p.length fs p (Nat.le_refl _)

/-! ### Lemmas about the copy loop and the syscall steps -/

theorem fsDel_fsSet_self (fs : Fs) (p : FPath) (o : FsObj) :
    fsDel (fsSet fs p o) p = fsDel fs p := by
  simp [fsSet, fsDel, fsDel_fsDel_self]

theorem copyLoopF_ok_full (blk : Nat) (we : Option Nat) :
    ∀ (fuel n : Nat) (rem w out : List Nat), 0 < blk → rem.length < fuel →
    copyLoopF blk none we fuel n rem w = .ok out → out = w ++ rem := by
  intro fuel
  induction fuel with
  | zero => intro n rem w out _ h; omega
  | succ f ih =>
    intro n rem w out hblk hlen h
    simp only [copyLoopF] at h
    have hre : ¬ ((none : Option Nat) = some n) := by simp
    rw [if_neg hre] at h
    by_cases hc : (rem.take blk).isEmpty
    · have hrem : rem = [] := by
        rcases List.take_eq_nil_iff.mp (List.isEmpty_iff.mp hc) with h1 | h1
        · omega
        · exact h1
      subst hrem
      rw [if_pos hc] at h
      injection h with h
      simp [h.symm]
    · rw [if_neg hc] at h
      by_cases hwe : we = some n
      · rw [if_pos hwe] at h
        exact absurd h (by simp)
      · rw [if_neg hwe] at h
        have hrem : rem ≠ [] := by
          intro hn
          subst hn
          simp at hc
        have hlen2 : (rem.drop blk).length < f := by
          have : 0 < rem.length := List.length_pos.mpr hrem
          simp [List.length_drop]
          omega
        have := ih (n + 1) (rem.drop blk) (w ++ rem.take blk) out hblk hlen2 h
        rw [this, List.append_assoc, List.take_append_drop]

theorem copyLoopF_full_fwd (blk : Nat) :
    ∀ (fuel n : Nat) (rem w : List Nat), 0 < blk → rem.length < fuel →
    copyLoopF blk none none fuel n rem w = .ok (w ++ rem) := by
  intro fuel
  induction fuel with
  | zero => intro n rem w _ h; omega
  | succ f ih =>
    intro n rem w hblk hlen
    simp only [copyLoopF]
    rw [if_neg (by simp)]
    by_cases hc : (rem.take blk).isEmpty
    · rw [if_pos hc]
      rcases List.take_eq_nil_iff.mp (List.isEmpty_iff.mp hc) with h1 | h1
      · omega
      · rw [h1]
        simp
    · rw [if_neg hc]
      rw [if_neg (by simp)]
      have hrem : rem ≠ [] := by
        intro hn
        subst hn
        simp at hc
      have hlen2 : (rem.drop blk).length < f := by
        have : 0 < rem.length := List.length_pos.mpr hrem
        simp [List.length_drop]
        omega
      rw [ih (n + 1) (rem.drop blk) (w ++ rem.take blk) hblk hlen2]
      rw [List.append_assoc, List.take_append_drop]

theorem copyLoopF_readErr (blk m : Nat) :
    ∀ (fuel n : Nat) (rem w : List Nat), n ≤ m → rem.length < fuel →
    copyLoopF blk (some m) none fuel n rem w = .ok (w ++ rem.take ((m - n) * blk)) := by
  intro fuel
  induction fuel with
  | zero => intro n rem w _ h; omega
  | succ f ih =>
    intro n rem w hnm hlen
    simp only [copyLoopF]
    by_cases hmn : m = n
    · subst hmn
      simp
    · have hlt : n < m := by omega
      rw [if_neg (by simp; omega)]
      by_cases hc : (rem.take blk).isEmpty
      · rw [if_pos hc]
        rcases List.take_eq_nil_iff.mp (List.isEmpty_iff.mp hc) with h1 | h1
        · subst h1
          simp
        · rw [h1]
          simp
      · rw [if_neg hc]
        rw [if_neg (by simp)]
        have hrem : rem ≠ [] := by
          intro hn
          subst hn
          simp at hc
        have hblk : blk ≠ 0 := by
          intro hb
          subst hb
          simp at hc
        have hlen2 : (rem.drop blk).length < f := by
          have : 0 < rem.length := List.length_pos.mpr hrem
          simp [List.length_drop]
          omega
        rw [ih (n + 1) (rem.drop blk) (w ++ rem.take blk) (by omega) hlen2]
        have hsplit : rem.take ((m - n) * blk) = rem.take blk ++ (rem.drop blk).take ((m - (n + 1)) * blk) := by
          have harith : (m - n) * blk = blk + (m - (n + 1)) * blk := by
            have h1 : m - n = (m - (n + 1)) + 1 := by omega
            rw [h1, Nat.succ_mul]
            omega
          rw [harith, List.take_add]
        rw [hsplit, List.append_assoc]

theorem copyLoopF_writeErr (blk k : Nat) :
    ∀ (fuel n : Nat) (rem w : List Nat), 0 < blk → n ≤ k → rem.length < fuel →
    (k - n) * blk < rem.length →
    copyLoopF blk none (some k) fuel n rem w = .error (w ++ rem.take ((k - n) * blk)) := by
  intro fuel
  induction fuel with
  | zero => intro n rem w _ _ h _; omega
  | succ f ih =>
    intro n rem w hblk hnk hlen hkb
    simp only [copyLoopF]
    rw [if_neg (by simp)]
    have hrem : rem ≠ [] := by
      intro hn
      subst hn
      simp at hkb
    have hc : ¬ (rem.take blk).isEmpty = true := by
      intro hemp
      rcases List.take_eq_nil_iff.mp (List.isEmpty_iff.mp hemp) with h1 | h1
      · omega
      · exact hrem h1
    rw [if_neg hc]
    by_cases hmn : k = n
    · subst hmn
      rw [if_pos rfl]
      simp
    · have hlt : n < k := by omega
      rw [if_neg (by simp; omega)]
      have hsplit : (k - n) * blk = blk + (k - (n + 1)) * blk := by
        have h1 : k - n = (k - (n + 1)) + 1 := by omega
        rw [h1, Nat.succ_mul]
        omega
      have hlen2 : (rem.drop blk).length < f := by
        have : 0 < rem.length := List.length_pos.mpr hrem
        simp [List.length_drop]
        omega
      have hkb2 : (k - (n + 1)) * blk < (rem.drop blk).length := by
        rw [hsplit] at hkb
        simp [List.length_drop]
        omega
      rw [ih (n + 1) (rem.drop blk) (w ++ rem.take blk) hblk (by omega) hlen2 hkb2]
      rw [hsplit, List.take_add, List.append_assoc]

theorem resolveEntry_some (fs : Fs) :
    ∀ (fuel : Nat) (p q : FPath), resolveEntry fs fuel p = some q →
    ∃ o, fsFind fs q = some o ∧ ∀ t a b, o ≠ .symlink t a b := by
  intro fuel
  induction fuel with
  | zero => intro p q h; exact absurd h (by simp [resolveEntry])
  | succ f ih =>
    intro p q h
    simp only [resolveEntry] at h
    rcases hf : fsFind fs p with _ | o
    · rw [hf] at h; exact absurd h (by simp)
    · rw [hf] at h
      cases o with
      | symlink t a b => exact ih t q h
      | file cont m ow g =>
        simp at h
        subst h
        exact ⟨.file cont m ow g, hf, by intro t a b hc; exact absurd hc (by simp)⟩
      | dir m ow g =>
        simp at h
        subst h
        exact ⟨.dir m ow g, hf, by intro t a b hc; exact absurd hc (by simp)⟩
      | other =>
        simp at h
        subst h
        exact ⟨.other, hf, by intro t a b hc; exact absurd hc (by simp)⟩

theorem openCreate_of_none (env : Env) (fs : Fs) (p : FPath)
    (h : fsFind fs p = none) (hp : parentOkB fs p = true) :
    openCreate env fs 40 p = some ⟨p, [], 0o600, env.uid, env.gid, fsSet fs p (.file [] 0o600 env.uid env.gid)⟩ := by
  simp [openCreate, h, hp]

theorem openCreate_of_file (env : Env) (fs : Fs) (p : FPath) (cont : List Nat) (m o g : Nat)
    (h : fsFind fs p = some (.file cont m o g)) :
    openCreate env fs 40 p = some ⟨p, cont, m, o, g, fs⟩ := by
  simp [openCreate, h]

theorem openSrc_of_file (fs : Fs) (p : FPath) (cont : List Nat) (m o g : Nat)
    (h : fsFind fs p = some (.file cont m o g)) :
    openSrc fs 40 p = some ⟨cont, false⟩ := by
  simp [openSrc, h]

theorem chmodE_ok (env : Env) (fs fs2 : Fs) (p : FPath) (m : Nat)
    (h : chmodE env fs p m = .ok fs2) :
    env.chmodErr = false ∧
    ∃ q o, resolveEntry fs 40 p = some q ∧ fsFind fs q = some o ∧ fs2 = fsSet fs q (setMode o m) := by
  unfold chmodE at h
  by_cases hce : env.chmodErr
  · rw [if_pos hce] at h
    exact absurd h (by simp)
  · rw [if_neg hce] at h
    refine ⟨by simpa using hce, ?_⟩
    rcases hr : resolveEntry fs 40 p with _ | q
    · rw [hr] at h; exact absurd h (by simp)
    · rw [hr] at h
      dsimp only at h
      rcases hf : fsFind fs q with _ | o
      · rw [hf] at h; exact absurd h (by simp)
      · rw [hf] at h
        simp at h
        exact ⟨q, o, rfl, hf, h.symm⟩

theorem lchownE_ok (env : Env) (fs fs2 : Fs) (p : FPath) (ow gr : Nat)
    (h : lchownE env fs p ow gr = .ok fs2) :
    env.chownErr = false ∧
    ∃ o, fsFind fs p = some o ∧ fs2 = fsSet fs p (setOwn o ow gr) := by
  unfold lchownE at h
  by_cases hce : env.chownErr
  · rw [if_pos hce] at h
    exact absurd h (by simp)
  · rw [if_neg hce] at h
    refine ⟨by simpa using hce, ?_⟩
    rcases hf : fsFind fs p with _ | o
    · rw [hf] at h; exact absurd h (by simp)
    · rw [hf] at h
      simp at h
      exact ⟨o, rfl, h.symm⟩

theorem renameE_ok (fs fs2 : Fs) (p q : FPath)
    (h : renameE fs p q = .ok fs2) :
    ∃ o, fsFind fs p = some o ∧ fs2 = fsSet (fsDel fs p) q o := by
  unfold renameE at h
  rcases hf : fsFind fs p with _ | o
  · rw [hf] at h; exact absurd h (by simp)
  · rw [hf] at h
    refine ⟨o, rfl, ?_⟩
    rcases hg : fsFind fs q with _ | o2
    · rw [hg] at h; simp at h; exact h.symm
    · rw [hg] at h
      cases o2 with
      | dir m ow g => exact absurd h (by simp)
      | file cont m ow g => simp at h; exact h.symm
      | symlink t ow g => simp at h; exact h.symm
      | other => simp at h; exact h.symm

theorem tmpOf_ne_dst (c : Cfg) : tmpOf c ≠ c.dst := by
  have h : c.dst ≠ tmpOf c := by
    apply ne_of_length_lt
    simp [tmpOf]
  exact fun he => h he.symm

theorem resolveEntry_of_nonlink (fs : Fs) (p : FPath) (o : FsObj)
    (h : fsFind fs p = some o) (hnl : ∀ t a b, o ≠ .symlink t a b) :
    resolveEntry fs 40 p = some p := by
  cases o with
  | symlink t a b => exact absurd rfl (hnl t a b)
  | file cont m ow g => simp [resolveEntry, h]
  | dir m ow g => simp [resolveEntry, h]
  | other => simp [resolveEntry, h]

theorem openCreate_none_of_blocked (env : Env) (fs : Fs) (p : FPath)
    (h : fsFind fs p = none) (hp : parentOkB fs p = false) :
    openCreate env fs 40 p = none := by
  simp [openCreate, h, hp]

theorem openCreate_of_dir (env : Env) (fs : Fs) (p : FPath) (m o g : Nat)
    (h : fsFind fs p = some (.dir m o g)) :
    openCreate env fs 40 p = none := by
  simp [openCreate, h]

theorem openCreate_of_other (env : Env) (fs : Fs) (p : FPath)
    (h : fsFind fs p = some .other) :
    openCreate env fs 40 p = none := by
  simp [openCreate, h]

theorem mkTemp_sym_ok (c : Cfg) (env : Env) (fs1 fs2 : Fs) (hs : c.symbolic = true)
    (h : mkTempPhase c env fs1 = .ok fs2) :
    fs2 = fsSet fs1 (tmpOf c) (.symlink c.src env.uid env.gid) ∧
    fsFind fs1 (tmpOf c) = none := by
  unfold mkTempPhase at h
  rw [hs] at h
  simp only [if_true] at h
  unfold symlinkE at h
  by_cases he : (fsFind fs1 (tmpOf c)).isSome
  · rw [if_pos he] at h
    exact absurd h (by simp)
  · rw [if_neg he] at h
    by_cases hp : parentOkB fs1 (tmpOf c)
    · rw [if_pos hp] at h
      simp at h
      exact ⟨h.symm, Option.not_isSome_iff_eq_none.mp he⟩
    · rw [if_neg hp] at h
      exact absurd h (by simp)

theorem mkTemp_copy_ok_notlink (c : Cfg) (env : Env) (fs1 fs2 : Fs)
    (hs : c.symbolic = false)
    (hnl : ∀ t a b, fsFind fs1 (tmpOf c) ≠ some (.symlink t a b))
    (h : mkTempPhase c env fs1 = .ok fs2) :
    ∃ cont m o g, fs2 = fsSet fs1 (tmpOf c) (.file cont m o g) := by
  unfold mkTempPhase at h
  rw [hs] at h
  simp only [Bool.false_eq_true, if_false] at h
  by_cases hls : env.lstatErr
  · rw [if_pos hls] at h
    exact absurd h (by simp)
  · rw [if_neg hls] at h
    rcases hsrc : fsFind fs1 c.src with _ | st
    · rw [hsrc] at h; exact absurd h (by simp)
    · rw [hsrc] at h
      dsimp only at h
      by_cases hreg : lstatIsRegOrLnk st
      · rw [if_pos hreg] at h
        rcases hos : openSrc fs1 40 c.src with _ | h2
        · rw [hos] at h; exact absurd h (by simp)
        · rw [hos] at h
          dsimp only at h
          rcases hft : fsFind fs1 (tmpOf c) with _ | o
          · by_cases hpar : parentOkB fs1 (tmpOf c)
            · rw [openCreate_of_none env fs1 (tmpOf c) hft hpar] at h
              dsimp only at h
              rcases hloop : copyLoopF env.blk (if h2.isdir then some 0 else env.readErrAfter)
                  env.writeErrAfter (h2.bytes.length + 1) 0 h2.bytes [] with w | w
              · rw [hloop] at h; exact absurd h (by simp)
              · rw [hloop] at h
                simp at h
                rw [fsSet_fsSet] at h
                exact ⟨_, _, _, _, h.symm⟩
            · rw [openCreate_none_of_blocked env fs1 (tmpOf c) hft (by simpa using hpar)] at h
              exact absurd h (by simp)
          · cases o with
            | file cont m ow g =>
              rw [openCreate_of_file env fs1 (tmpOf c) cont m ow g hft] at h
              dsimp only at h
              rcases hloop : copyLoopF env.blk (if h2.isdir then some 0 else env.readErrAfter)
                  env.writeErrAfter (h2.bytes.length + 1) 0 h2.bytes [] with w | w
              · rw [hloop] at h; exact absurd h (by simp)
              · rw [hloop] at h
                simp at h
                exact ⟨_, _, _, _, h.symm⟩
            | symlink t a b => exact absurd hft (hnl t a b)
            | dir m ow g =>
              rw [openCreate_of_dir env fs1 (tmpOf c) m ow g hft] at h
              exact absurd h (by simp)
            | other =>
              rw [openCreate_of_other env fs1 (tmpOf c) hft] at h
              exact absurd h (by simp)
      · rw [if_neg hreg] at h
        by_cases hd : lstatIsDir st
        · rw [if_pos hd] at h; exact absurd h (by simp)
        · rw [if_neg hd] at h; exact absurd h (by simp)

theorem mkTemp_copy_ok_new (c : Cfg) (env : Env) (fs1 fs2 : Fs)
    (hs : c.symbolic = false)
    (htmp : fsFind fs1 (tmpOf c) = none)
    (hre : env.readErrAfter = none)
    (hblk : 0 < env.blk)
    (h : mkTempPhase c env fs1 = .ok fs2) :
    ∃ h2, openSrc fs1 40 c.src = some h2 ∧
      fs2 = fsSet fs1 (tmpOf c)
        (.file (if h2.isdir then [] else h2.bytes) 0o600 env.uid env.gid) := by
  unfold mkTempPhase at h
  rw [hs] at h
  simp only [Bool.false_eq_true, if_false] at h
  by_cases hls : env.lstatErr
  · rw [if_pos hls] at h
    exact absurd h (by simp)
  · rw [if_neg hls] at h
    rcases hsrc : fsFind fs1 c.src with _ | st
    · rw [hsrc] at h; exact absurd h (by simp)
    · rw [hsrc] at h
      dsimp only at h
      by_cases hreg : lstatIsRegOrLnk st
      · rw [if_pos hreg] at h
        rcases hos : openSrc fs1 40 c.src with _ | h2
        · rw [hos] at h; exact absurd h (by simp)
        · rw [hos] at h
          dsimp only at h
          by_cases hpar : parentOkB fs1 (tmpOf c)
          · rw [openCreate_of_none env fs1 (tmpOf c) htmp hpar] at h
            dsimp only at h
            refine ⟨h2, rfl, ?_⟩
            by_cases hdir : h2.isdir
            · rw [if_pos hdir] at h
              have hloop : copyLoopF env.blk (some 0) env.writeErrAfter
                  (h2.bytes.length + 1) 0 h2.bytes [] = .ok [] := by
                simp [copyLoopF]
              rw [hloop] at h
              simp at h
              rw [fsSet_fsSet] at h
              rw [if_pos hdir]
              exact h.symm
            · rw [if_neg hdir] at h
              rw [hre] at h
              rcases hloop : copyLoopF env.blk none env.writeErrAfter
                  (h2.bytes.length + 1) 0 h2.bytes [] with w | w
              · rw [hloop] at h; exact absurd h (by simp)
              · rw [hloop] at h
                have hw : w = [] ++ h2.bytes :=
                  copyLoopF_ok_full env.blk env.writeErrAfter (h2.bytes.length + 1) 0
                    h2.bytes [] w hblk (by omega) hloop
                simp at hw
                subst hw
                simp at h
                rw [fsSet_fsSet] at h
                rw [if_neg hdir]
                simpa using h.symm
          · rw [openCreate_none_of_blocked env fs1 (tmpOf c) htmp (by simpa using hpar)] at h
            exact absurd h (by simp)
      · rw [if_neg hreg] at h
        by_cases hd : lstatIsDir st
        · rw [if_pos hd] at h; exact absurd h (by simp)
        · rw [if_neg hd] at h; exact absurd h (by simp)

theorem install_eq_err (c : Cfg) (env : Env) (fs : Fs) (e : FatalMsg × Fs)
    (hM : mkTempPhase c env (dirPhase c env fs) = .error e) :
    install c env fs = ⟨1, some e.1, false, e.2⟩ := by
  unfold install
  rw [hM]

theorem install_eq_ok (c : Cfg) (env : Env) (fs fs2 : Fs)
    (hM : mkTempPhase c env (dirPhase c env fs) = .ok fs2) :
    install c env fs = install2 c env fs2 := by
  unfold install
  rw [hM]

theorem install2_eq_err (c : Cfg) (env : Env) (fs2 : Fs) (m : FatalMsg)
    (hC : chmodE env fs2 (tmpOf c) c.mode = .error m) :
    install2 c env fs2 = ⟨1, some m, false, fs2⟩ := by
  unfold install2
  rw [hC]

theorem install2_eq_ok (c : Cfg) (env : Env) (fs2 fs3 : Fs)
    (hC : chmodE env fs2 (tmpOf c) c.mode = .ok fs3) :
    install2 c env fs2 = install3 c env fs3 := by
  unfold install2
  rw [hC]

theorem install3_eq_err (c : Cfg) (env : Env) (fs3 : Fs) (m : FatalMsg)
    (hO : lchownE env fs3 (tmpOf c) c.owner c.group = .error m) :
    install3 c env fs3 = ⟨1, some m, false, fs3⟩ := by
  unfold install3
  rw [hO]

theorem install3_eq_ok (c : Cfg) (env : Env) (fs3 fs4 : Fs)
    (hO : lchownE env fs3 (tmpOf c) c.owner c.group = .ok fs4) :
    install3 c env fs3 = install4 c fs4 := by
  unfold install3
  rw [hO]

theorem install4_eq_err (c : Cfg) (fs4 : Fs) (m : FatalMsg)
    (hR : renameE fs4 (tmpOf c) c.dst = .error m) :
    install4 c fs4 = ⟨1, some m, false, fs4⟩ := by
  unfold install4
  rw [hR]

theorem install4_eq_ok (c : Cfg) (fs4 fs5 : Fs)
    (hR : renameE fs4 (tmpOf c) c.dst = .ok fs5) :
    install4 c fs4 = ⟨0, none, false, fs5⟩ := by
  unfold install4
  rw [hR]

theorem dirPhase_find_ge (c : Cfg) (env : Env) (fs : Fs) (q : FPath)
    (h : c.dst.length ≤ q.length) :
    fsFind (dirPhase c env fs) q = fsFind fs q := by
  unfold dirPhase
  by_cases hm : c.mkdirp
  · rw [if_pos hm]
    exact mkparents_find_ge env fs c.dst q h
  · rw [if_neg hm]

theorem dirPhase_find_tmp (c : Cfg) (env : Env) (fs : Fs) :
    fsFind (dirPhase c env fs) (tmpOf c) = fsFind fs (tmpOf c) :=
  dirPhase_find_ge c env fs (tmpOf c) (by simp [tmpOf])

theorem dirPhase_find_dst (c : Cfg) (env : Env) (fs : Fs) :
    fsFind (dirPhase c env fs) c.dst = fsFind fs c.dst :=
  dirPhase_find_ge c env fs c.dst (Nat.le_refl _)

/-- Analysis of every run of the post-parse phase that returns exit
status 0: the temporary entry is gone and the destination holds exactly
the installed object. In copy mode the bytes are those readable from
the opened source (the full content when the source resolves to a
regular file; nothing when it resolves to a directory, whose reads fail
and are treated as end of stream); the hypotheses exclude a pre-existing
object at the temporary path and an injected source read error, and
require a positive source block size. -/
theorem install_success (c : Cfg) (env : Env) (fs : Fs)
    (htmp : fsFind fs (tmpOf c) = none)
    (hre : env.readErrAfter = none)
    (hblk : 0 < env.blk)
    (h0 : (install c env fs).exit = 0) :
    fsFind (install c env fs).fs (tmpOf c) = none ∧
    (c.symbolic = true →
      fsFind (install c env fs).fs c.dst = some (.symlink c.src c.owner c.group)) ∧
    (c.symbolic = false →
      ∃ h2, openSrc (dirPhase c env fs) 40 c.src = some h2 ∧
        fsFind (install c env fs).fs c.dst =
          some (.file (if h2.isdir then [] else h2.bytes) c.mode c.owner c.group)) := by
  have htmp1 : fsFind (dirPhase c env fs) (tmpOf c) = none := by
    rw [dirPhase_find_tmp]; exact htmp
  rcases hM : mkTempPhase c env (dirPhase c env fs) with e | fs2
  · rw [install_eq_err c env fs e hM] at h0
    simp at h0
  · rw [install_eq_ok c env fs fs2 hM] at h0 ⊢
    rcases hC : chmodE env fs2 (tmpOf c) c.mode with m | fs3
    · rw [install2_eq_err c env fs2 m hC] at h0
      simp at h0
    · rw [install2_eq_ok c env fs2 fs3 hC] at h0 ⊢
      rcases hO : lchownE env fs3 (tmpOf c) c.owner c.group with m | fs4
      · rw [install3_eq_err c env fs3 m hO] at h0
        simp at h0
      · rw [install3_eq_ok c env fs3 fs4 hO] at h0 ⊢
        rcases hR : renameE fs4 (tmpOf c) c.dst with m | fs5
        · rw [install4_eq_err c fs4 m hR] at h0
          simp at h0
        · rw [install4_eq_ok c fs4 fs5 hR] at h0 ⊢
          dsimp only at h0 ⊢
          obtain ⟨oR, hRf, hR5⟩ := renameE_ok fs4 fs5 _ _ hR
          by_cases hs : c.symbolic
          · -- symbolic-link mode
            obtain ⟨h2eq, _⟩ := mkTemp_sym_ok c env (dirPhase c env fs) fs2 hs hM
            have hf2t : fsFind fs2 (tmpOf c) = some (.symlink c.src env.uid env.gid) := by
              rw [h2eq]; simp
            obtain ⟨hch, q, o, hres, hfq, h3⟩ := chmodE_ok env fs2 fs3 _ _ hC
            obtain ⟨o2, hfq2, hnl2⟩ := resolveEntry_some fs2 40 (tmpOf c) q hres
            rw [hfq] at hfq2
            injection hfq2 with hoo
            subst hoo
            have hqt : q ≠ tmpOf c := by
              intro he
              subst he
              rw [hfq] at hf2t
              injection hf2t with h'
              exact hnl2 c.src env.uid env.gid h'
            have hf3t : fsFind fs3 (tmpOf c) = some (.symlink c.src env.uid env.gid) := by
              rw [h3, fsFind_fsSet_ne _ _ _ _ hqt]
              exact hf2t
            obtain ⟨hco, o3, hfo3, h4⟩ := lchownE_ok env fs3 fs4 _ _ _ hO
            rw [hf3t] at hfo3
            injection hfo3 with ho3
            subst ho3
            have hf4t : fsFind fs4 (tmpOf c) = some (.symlink c.src c.owner c.group) := by
              rw [h4]; simp [setOwn]
            rw [hf4t] at hRf
            injection hRf with hoR
            subst hoR
            refine ⟨?_, fun _ => ?_, fun hns => absurd hs (by simp [hns])⟩
            · rw [hR5, fsFind_fsSet_ne _ _ _ _ (tmpOf_ne_dst c).symm, fsFind_fsDel_self]
            · rw [hR5]
              simp
          · -- copy mode
            obtain ⟨h2, hos, h2eq⟩ :=
              mkTemp_copy_ok_new c env (dirPhase c env fs) fs2 (by simpa using hs) htmp1 hre hblk hM
            have hf2t : fsFind fs2 (tmpOf c)
                = some (.file (if h2.isdir then [] else h2.bytes) 0o600 env.uid env.gid) := by
              rw [h2eq]; simp
            obtain ⟨hch, q, o, hres, hfq, h3⟩ := chmodE_ok env fs2 fs3 _ _ hC
            have hres2 : resolveEntry fs2 40 (tmpOf c) = some (tmpOf c) :=
              resolveEntry_of_nonlink fs2 (tmpOf c) _ hf2t (by intro t a b hc; exact absurd hc (by simp))
            rw [hres2] at hres
            injection hres with hq
            subst hq
            rw [hf2t] at hfq
            injection hfq with ho
            subst ho
            have h3e : fs3 = fsSet (dirPhase c env fs) (tmpOf c)
                (.file (if h2.isdir then [] else h2.bytes) c.mode env.uid env.gid) := by
              rw [h3, h2eq, fsSet_fsSet]
              rfl
            obtain ⟨hco, o3, hfo3, h4⟩ := lchownE_ok env fs3 fs4 _ _ _ hO
            have hf3t : fsFind fs3 (tmpOf c)
                = some (.file (if h2.isdir then [] else h2.bytes) c.mode env.uid env.gid) := by
              rw [h3e]; simp
            rw [hf3t] at hfo3
            injection hfo3 with ho3
            subst ho3
            have h4e : fs4 = fsSet (dirPhase c env fs) (tmpOf c)
                (.file (if h2.isdir then [] else h2.bytes) c.mode c.owner c.group) := by
              rw [h4, h3e, fsSet_fsSet]
              rfl
            have hf4t : fsFind fs4 (tmpOf c)
                = some (.file (if h2.isdir then [] else h2.bytes) c.mode c.owner c.group) := by
              rw [h4e]; simp
            rw [hf4t] at hRf
            injection hRf with hoR
            subst hoR
            refine ⟨?_, fun hss => absurd hss (by simpa using hs), fun _ => ⟨h2, hos, ?_⟩⟩
            · rw [hR5, fsFind_fsSet_ne _ _ _ _ (tmpOf_ne_dst c).symm, fsFind_fsDel_self]
            · rw [hR5]
              simp

theorem chmodE_errInj (env : Env) (fs : Fs) (p : FPath) (m : Nat)
    (hch : env.chmodErr = true) : chmodE env fs p m = .error .chmodFail := by
  simp [chmodE, hch]

theorem lchownE_errInj (env : Env) (fs : Fs) (p : FPath) (ow gr : Nat)
    (hco : env.chownErr = true) : lchownE env fs p ow gr = .error .chownFail := by
  simp [lchownE, hco]

theorem chmodE_compute (env : Env) (fs : Fs) (p : FPath) (m : Nat) (o : FsObj)
    (hch : env.chmodErr = false) (h : fsFind fs p = some o)
    (hnl : ∀ t a b, o ≠ .symlink t a b) :
    chmodE env fs p m = .ok (fsSet fs p (setMode o m)) := by
  unfold chmodE
  rw [hch, resolveEntry_of_nonlink fs p o h hnl]
  simp [h]

theorem lchownE_compute (env : Env) (fs : Fs) (p : FPath) (ow gr : Nat) (o : FsObj)
    (hco : env.chownErr = false) (h : fsFind fs p = some o) :
    lchownE env fs p ow gr = .ok (fsSet fs p (setOwn o ow gr)) := by
  unfold lchownE
  rw [hco, h]
  simp

theorem renameE_compute (fs : Fs) (p q : FPath) (o : FsObj)
    (h : fsFind fs p = some o)
    (hq : ∀ m ow g, fsFind fs q ≠ some (.dir m ow g)) :
    renameE fs p q = .ok (fsSet (fsDel fs p) q o) := by
  unfold renameE
  rw [h]
  rcases hg : fsFind fs q with _ | o2
  · rfl
  · cases o2 with
    | dir m ow g => exact absurd hg (hq m ow g)
    | file cont m ow g => rfl
    | symlink t ow g => rfl
    | other => rfl

theorem chmodE_err_tag (env : Env) (fs : Fs) (p : FPath) (m : Nat) (e : FatalMsg)
    (h : chmodE env fs p m = .error e) : e = .chmodFail := by
  unfold chmodE at h
  split at h
  · injection h with h1; exact h1.symm
  · split at h
    · injection h with h1; exact h1.symm
    · split at h
      · injection h with h1; exact h1.symm
      · exact absurd h (by simp)

theorem lchownE_err_tag (env : Env) (fs : Fs) (p : FPath) (ow gr : Nat) (e : FatalMsg)
    (h : lchownE env fs p ow gr = .error e) : e = .chownFail := by
  unfold lchownE at h
  split at h
  · injection h with h1; exact h1.symm
  · split at h
    · injection h with h1; exact h1.symm
    · exact absurd h (by simp)

theorem renameE_err_tag (fs : Fs) (p q : FPath) (e : FatalMsg)
    (h : renameE fs p q = .error e) : e = .renameFail := by
  unfold renameE at h
  split at h
  · injection h with h1; exact h1.symm
  · split at h
    · injection h with h1; exact h1.symm
    · exact absurd h (by simp)

theorem mkTempPhase_err_tag (c : Cfg) (env : Env) (fs1 : Fs) (e : FatalMsg × Fs)
    (h : mkTempPhase c env fs1 = .error e) : e.1 ≠ .dirCreateFail := by
  unfold mkTempPhase at h
  dsimp only at h
  repeat' split at h
  all_goals simp_all
  all_goals rw [← h]
  all_goals simp

/-- C2 (corrected). The claim said that a directory-creation failure
for a reason other than "already exists" makes the program fail fatally
reporting the destination path; in the code mkparents ignores the
return value of every mkdir call (install.c line 74) and can itself
fail only on malloc failure (assumed absent in the model), so the
directory-creation fatal diagnostic of install.c lines 180-181 is
unreachable: no run of the post-parse phase ever reports it, whatever
the mkdir outcomes were. -/
theorem c2_mkdir_failure_ignored (c : Cfg) (env : Env) (fs : Fs) :
    (install c env fs).ftag ≠ some .dirCreateFail := by
  rcases hM : mkTempPhase c env (dirPhase c env fs) with e | fs2
  · rw [install_eq_err c env fs e hM]
    intro hcon
    injection hcon with hcon
    exact mkTempPhase_err_tag c env _ e hM hcon
  · rw [install_eq_ok c env fs fs2 hM]
    rcases hC : chmodE env fs2 (tmpOf c) c.mode with m | fs3
    · rw [install2_eq_err c env fs2 m hC]
      intro hcon
      injection hcon with hcon
      rw [chmodE_err_tag env fs2 (tmpOf c) c.mode m hC] at hcon
      exact absurd hcon (by simp)
    · rw [install2_eq_ok c env fs2 fs3 hC]
      rcases hO : lchownE env fs3 (tmpOf c) c.owner c.group with m | fs4
      · rw [install3_eq_err c env fs3 m hO]
        intro hcon
        injection hcon with hcon
        rw [lchownE_err_tag env fs3 (tmpOf c) c.owner c.group m hO] at hcon
        exact absurd hcon (by simp)
      · rw [install3_eq_ok c env fs3 fs4 hO]
        rcases hR : renameE fs4 (tmpOf c) c.dst with m | fs5
        · rw [install4_eq_err c fs4 m hR]
          intro hcon
          injection hcon with hcon
          rw [renameE_err_tag fs4 (tmpOf c) c.dst m hR] at hcon
          exact absurd hcon (by simp)
        · rw [install4_eq_ok c fs4 fs5 hR]
          simp

theorem mkTempPhase_copy_compute (c : Cfg) (env : Env) (fs1 : Fs) (st : FsObj)
    (h2 : SrcHandle) (r : OpenRes) (w : List Nat)
    (hs : c.symbolic = false) (hls : env.lstatErr = false)
    (hsrc : fsFind fs1 c.src = some st) (hreg : lstatIsRegOrLnk st = true)
    (hos : openSrc fs1 40 c.src = some h2)
    (hoc : openCreate env fs1 40 (tmpOf c) = some r)
    (hloop : copyLoopF env.blk (if h2.isdir then some 0 else env.readErrAfter)
      env.writeErrAfter (h2.bytes.length + 1) 0 h2.bytes [] = .ok w) :
    mkTempPhase c env fs1 =
      .ok (fsSet r.fs r.q (.file (w ++ r.content.drop w.length) r.fmode r.fowner r.fgroup)) := by
  unfold mkTempPhase
  rw [hs]
  simp only [Bool.false_eq_true, if_false, hls, hsrc, hreg, if_true, hos, hoc, hloop]

theorem mkTempPhase_copy_writeErr (c : Cfg) (env : Env) (fs1 : Fs) (st : FsObj)
    (h2 : SrcHandle) (r : OpenRes) (w : List Nat)
    (hs : c.symbolic = false) (hls : env.lstatErr = false)
    (hsrc : fsFind fs1 c.src = some st) (hreg : lstatIsRegOrLnk st = true)
    (hos : openSrc fs1 40 c.src = some h2)
    (hoc : openCreate env fs1 40 (tmpOf c) = some r)
    (hloop : copyLoopF env.blk (if h2.isdir then some 0 else env.readErrAfter)
      env.writeErrAfter (h2.bytes.length + 1) 0 h2.bytes [] = .error w) :
    mkTempPhase c env fs1 =
      .error (.writeFail,
        fsSet r.fs r.q (.file (w ++ r.content.drop w.length) r.fmode r.fowner r.fgroup)) := by
  unfold mkTempPhase
  rw [hs]
  simp only [Bool.false_eq_true, if_false, hls, hsrc, hreg, if_true, hos, hoc, hloop]

theorem install_chmodInj_eq (c : Cfg) (env : Env) (fs fs2 : Fs)
    (hM : mkTempPhase c env (dirPhase c env fs) = .ok fs2)
    (hch : env.chmodErr = true) :
    install c env fs = ⟨1, some .chmodFail, false, fs2⟩ := by
  rw [install_eq_ok c env fs fs2 hM,
    install2_eq_err c env fs2 .chmodFail (chmodE_errInj env fs2 (tmpOf c) c.mode hch)]

theorem install_chownInj_eq (c : Cfg) (env : Env) (fs fs2 : Fs) (o : FsObj)
    (hM : mkTempPhase c env (dirPhase c env fs) = .ok fs2)
    (hch : env.chmodErr = false) (hco : env.chownErr = true)
    (hf2 : fsFind fs2 (tmpOf c) = some o) (hnl : ∀ t a b, o ≠ .symlink t a b) :
    install c env fs = ⟨1, some .chownFail, false, fsSet fs2 (tmpOf c) (setMode o c.mode)⟩ := by
  rw [install_eq_ok c env fs fs2 hM,
    install2_eq_ok c env fs2 _ (chmodE_compute env fs2 (tmpOf c) c.mode o hch hf2 hnl),
    install3_eq_err c env _ .chownFail
      (lchownE_errInj env _ (tmpOf c) c.owner c.group hco)]

theorem scanA_append_aux (env : Env) :
    ∀ (n : Nat) (xs : List FPath), xs.length ≤ n →
    ∀ (ys : List FPath) (c c2 : Cfg), scanA env c xs = .ok c2 [] →
    (∀ a ∈ xs, a ≠ ('-' :: '-' :: [])) →
    scanA env c (xs ++ ys) = scanA env c2 ys := by
  intro n
  induction n with
  | zero =>
    intro xs hx ys c c2 h hdd
    have hxe : xs = [] := List.length_eq_zero.mp (Nat.le_zero.mp hx)
    subst hxe
    unfold scanA at h
    injection h with h1 h2
    subst h1
    rfl
  | succ n ih =>
    intro xs hx ys c c2 h hdd
    cases xs with
    | nil =>
      unfold scanA at h
      injection h with h1 h2
      subst h1
      rfl
    | cons a xs =>
      rcases a with _ | ⟨x, a2⟩
      · simp only [scanA] at h
        injection h with h1 h2
        exact absurd h2 (by simp)
      · rcases a2 with _ | ⟨y, rest⟩
        · simp only [scanA] at h
          injection h with h1 h2
          exact absurd h2 (by simp)
        · by_cases hxd : x = '-'
          · by_cases hcond : (x :: y :: rest : FPath) = ('-' :: '-' :: [])
            · exact absurd hcond (hdd _ (by simp))
            · have hcond2 : ¬ (y = '-' && rest.isEmpty) = true := by
                intro hb
                simp at hb
                apply hcond
                rw [hxd, hb.1, hb.2]
              simp only [scanA, List.cons_append] at h ⊢
              rw [if_pos hxd] at h ⊢
              rw [if_neg hcond2] at h ⊢
              rcases hp : procCluster env c (y :: rest) with _ | m | c3 | ⟨och, c3⟩
              · rw [hp] at h
                simp at h
              · rw [hp] at h
                simp at h
              · rw [hp] at h
                dsimp only at h ⊢
                exact ih xs (by simp at hx; omega) ys c3 c2 h
                  (fun b hb => hdd b (by simp [hb]))
              · rw [hp] at h
                dsimp only at h ⊢
                cases xs with
                | nil => simp at h
                | cons b xs2 =>
                  dsimp only [List.cons_append] at h ⊢
                  rcases happ : applyOpt env c3 och b with m | c4
                  · rw [happ] at h
                    simp at h
                  · rw [happ] at h
                    dsimp only at h ⊢
                    exact ih xs2 (by simp at hx; omega) ys c4 c2 h
                      (fun d hd => hdd d (by simp [hd]))
          · simp only [scanA] at h
            rw [if_neg hxd] at h
            injection h with h1 h2
            exact absurd h2 (by simp)

theorem mkparents_rec_eq (env : Env) (fs : Fs) (p : FPath) (hl : lastSlashIdx p ≠ 0) :
    mkparents env fs p =
      ((mkdirE env (mkparents env fs (parentOf p)).1 (parentOf p)).1,
        (mkparents env fs (parentOf p)).2
          ++ [(parentOf p, (mkdirE env (mkparents env fs (parentOf p)).1 (parentOf p)).2)]) := by
  have hlt : lastSlashIdx p < p.length := lastSlashIdx_lt p hl
  have hbuf : (p.take (lastSlashIdx p)).length = lastSlashIdx p := by
    simp [List.length_take]
    omega
  have h1 : p.length = (p.length - 1) + 1 := by omega
  unfold mkparents
  rw [h1]
  have hcongr : mkparentsF env (p.length - 1) fs (p.take (lastSlashIdx p))
      = mkparentsF env (p.take (lastSlashIdx p)).length fs (p.take (lastSlashIdx p)) :=
    mkparentsF_congr env (p.length - 1) _ fs _ (by omega) (Nat.le_refl _)
  simp only [mkparentsF, hl, if_false]
  rw [hcongr]
  rfl

/-! ### The claims -/

/-- Witness for C2 at a concrete run: a plain successful install never
carries the directory-creation diagnostic. -/
theorem c2_mkdir_failure_ignored_witness :
    (install wCfg wEnv wFsS).ftag ≠ some FatalMsg.dirCreateFail :=
  c2_mkdir_failure_ignored wCfg wEnv wFsS

/-- Counterexample to C2 as stated: with -D, destination a/b/c and an
existing regular file at a, the mkdir of a/b fails with ENOTDIR - a
reason other than "already exists" - yet the program does not fail with
the directory-creation report for the destination; it proceeds and
later fails with the temporary-file-creation error instead. -/
theorem c2_mkdir_failure_ignored_cx :
    (['a', '/', 'b'], some Errno.enotdir)
        ∈ (mkparents wEnv wFsA ['a', '/', 'b', '/', 'c']).2 ∧
    runMain [['-', 'D'], ['s'], ['a', '/', 'b', '/', 'c']] wEnv wFsA
      = ⟨1, some FatalMsg.tmpCreateFail, false, wFsA⟩ ∧
    FatalMsg.tmpCreateFail ≠ FatalMsg.dirCreateFail := by
  decide

/-- C3 (code bug). The -m handler stores the strtoul result into the
32-bit mode_t variable before the range check of install.c line 165, so
the octal string 40000000000 - whose value 2 ^ 32 exceeds 07777 and
should be rejected with exit status 1 and no filesystem mutation -
truncates to mode 0, passes the check, and the program installs the
destination with mode 0 and exits 0. -/
theorem c3_mode_range_check_bypassed :
    parseArgs wEnv [['-', 'm'], ['4', '0', '0', '0', '0', '0', '0', '0', '0', '0', '0'], ['s'], ['d']]
      = .pok ⟨false, false, 0, 0, 0, ['s'], ['d']⟩ ∧
    (strtoulC ['4', '0', '0', '0', '0', '0', '0', '0', '0', '0', '0'] 8).val = 4294967296 ∧
    4294967296 > 0o7777 ∧
    runMain [['-', 'm'], ['4', '0', '0', '0', '0', '0', '0', '0', '0', '0', '0'], ['s'], ['d']] wEnv wFsS
      = ⟨0, none, false, [(['d'], .file [3, 4] 0 0 0), (['s'], .file [3, 4] 0o644 0 0)]⟩ := by
  decide

/-- C4 (confirmed). The parent-creation routine returns success with no
mkdir call for a path whose parent component is empty - in particular
for any path with no slash; otherwise it first recurses on the parent
prefix and then creates that parent, so the attempted mkdir calls form
a chain in which every created directory is preceded by its own parent
(whose creation came earlier) or has an empty parent component, ending
at the immediate parent of the destination. -/
theorem c4_mkparents_bottom_up (env : Env) (fs : Fs) (p : FPath) :
    ((∀ ch ∈ p, ch ≠ '/') → mkparents env fs p = (fs, [])) ∧
    (lastSlashIdx p ≠ 0 →
      mkparents env fs p =
        ((mkdirE env (mkparents env fs (parentOf p)).1 (parentOf p)).1,
          (mkparents env fs (parentOf p)).2
            ++ [(parentOf p, (mkdirE env (mkparents env fs (parentOf p)).1 (parentOf p)).2)])) ∧
    List.Chain' (fun a b => a = parentOf b) ((mkparents env fs p).2.map Prod.fst) ∧
    (∀ h0, ((mkparents env fs p).2.map Prod.fst).head? = some h0 → lastSlashIdx h0 = 0) ∧
    (lastSlashIdx p ≠ 0 →
      ((mkparents env fs p).2.map Prod.fst).getLast? = some (parentOf p)) := by
  refine ⟨fun hns => ?_, fun hl => mkparents_rec_eq env fs p hl,
    (mkparents_chain env fs p).1, (mkparents_chain env fs p).2.1,
    (mkparents_chain env fs p).2.2⟩
  have hl0 := lastSlashIdx_noSlash p hns
  unfold mkparents
  exact mkparentsF_of_lzero env _ fs p hl0

/-- Witness for C4 at two concrete paths: a slash-free path is a no-op,
and for a/b/c the last attempted directory is the immediate parent
a/b. -/
theorem c4_mkparents_bottom_up_witness :
    (∀ ch ∈ (['a', 'b'] : FPath), ch ≠ '/') ∧
    mkparents wEnv [] ['a', 'b'] = ([], []) ∧
    lastSlashIdx ['a', '/', 'b', '/', 'c'] ≠ 0 ∧
    ((mkparents wEnv [] ['a', '/', 'b', '/', 'c']).2.map Prod.fst).getLast?
      = some (parentOf ['a', '/', 'b', '/', 'c']) :=
  ⟨by decide, (c4_mkparents_bottom_up wEnv [] ['a', 'b']).1 (by decide), by decide,
    (c4_mkparents_bottom_up wEnv [] ['a', '/', 'b', '/', 'c']).2.2.2.2 (by decide)⟩

/-- C5 (corrected). For -g and -o the numeric parse is attempted first:
when strtoul in base 0 consumes the whole argument without a range
error, the resolved ID is the parsed value reduced modulo 2 ^ 32 (the
width of gid_t / uid_t), independent of the identity database - no
lookup happens; otherwise the argument is resolved by name, and when
that lookup also fails the program exits with status 1, the invalid
group (respectively user) diagnostic, and an unchanged filesystem. -/
theorem c5_id_resolution (db : List (FPath × Nat)) (s : FPath) (env : Env) (fs : Fs)
    (src dst : FPath) :
    (((strtoulC s 0).erange = false ∧ (strtoulC s 0).rest = []) →
      ∀ db2, resolveId db2 s = some ((strtoulC s 0).val % idMod)) ∧
    (((strtoulC s 0).erange = true ∨ (strtoulC s 0).rest ≠ []) →
      resolveId db s = lookupDb db s) ∧
    (((strtoulC s 0).erange = true ∨ (strtoulC s 0).rest ≠ []) → lookupDb db s = none →
      runMain [['-', 'g'], s, src, dst] { env with grpDb := db } fs
        = ⟨1, some .invalidGroup, false, fs⟩ ∧
      runMain [['-', 'o'], s, src, dst] { env with pwdDb := db } fs
        = ⟨1, some .invalidUser, false, fs⟩) := by
  refine ⟨fun hok db2 => ?_, fun hbad => ?_, fun hbad hlk => ⟨?_, ?_⟩⟩
  · unfold resolveId
    dsimp only
    rw [hok.1, hok.2]
    simp
  · unfold resolveId
    dsimp only
    have hcond : ((strtoulC s 0).erange || !(strtoulC s 0).rest.isEmpty) = true := by
      rcases hbad with h | h
      · simp [h]
      · simp [h]
    rw [hcond]
    simp only [if_true]
    rcases hl : lookupDb db s with _ | v <;> simp
  · have hres : resolveId db s = none := by
      have h2 : resolveId db s = lookupDb db s := by
        unfold resolveId
        dsimp only
        have hcond : ((strtoulC s 0).erange || !(strtoulC s 0).rest.isEmpty) = true := by
          rcases hbad with h | h
          · simp [h]
          · simp [h]
        rw [hcond]
        simp only [if_true]
        rcases hl : lookupDb db s with _ | v <;> simp
      rw [h2, hlk]
    have happ : applyOpt { env with grpDb := db } (initCfg { env with grpDb := db }) 'g' s
        = .error .invalidGroup := by
      unfold applyOpt
      simp [hres]
    have hscan : scanA { env with grpDb := db } (initCfg { env with grpDb := db })
        [['-', 'g'], s, src, dst] = .fatal .invalidGroup := by
      simp [scanA, procCluster, happ]
    unfold runMain parseArgs
    rw [hscan]
  · have hres : resolveId db s = none := by
      have h2 : resolveId db s = lookupDb db s := by
        unfold resolveId
        dsimp only
        have hcond : ((strtoulC s 0).erange || !(strtoulC s 0).rest.isEmpty) = true := by
          rcases hbad with h | h
          · simp [h]
          · simp [h]
        rw [hcond]
        simp only [if_true]
        rcases hl : lookupDb db s with _ | v <;> simp
      rw [h2, hlk]
    have happ : applyOpt { env with pwdDb := db } (initCfg { env with pwdDb := db }) 'o' s
        = .error .invalidUser := by
      unfold applyOpt
      simp [hres]
    have hscan : scanA { env with pwdDb := db } (initCfg { env with pwdDb := db })
        [['-', 'o'], s, src, dst] = .fatal .invalidUser := by
      simp [scanA, procCluster, happ]
    unfold runMain parseArgs
    rw [hscan]

/-- Witness for C5: the numeric string 5 resolves to 5 with an empty
database, and the non-numeric string x fails the lookup in an empty
group database, exiting 1 with the filesystem untouched. -/
theorem c5_id_resolution_witness :
    ((strtoulC ['5'] 0).erange = false ∧ (strtoulC ['5'] 0).rest = []) ∧
    resolveId [] ['5'] = some ((strtoulC ['5'] 0).val % idMod) ∧
    ((strtoulC ['x'] 0).erange = true ∨ (strtoulC ['x'] 0).rest ≠ []) ∧
    lookupDb ([] : List (FPath × Nat)) ['x'] = none ∧
    runMain [['-', 'g'], ['x'], ['s'], ['d']] { wEnv with grpDb := [] } []
      = ⟨1, some .invalidGroup, false, []⟩ :=
  ⟨by decide,
    (c5_id_resolution [] ['5'] wEnv [] ['s'] ['d']).1 (by decide) [],
    by decide, by decide,
    ((c5_id_resolution [] ['x'] wEnv [] ['s'] ['d']).2.2 (by decide) (by decide)).1⟩

/-- Counterexample to C5 as stated: the purely numeric string
4294967296 (every character a decimal digit) does resolve numerically
with no lookup, but to 0 - the value truncated to the 32-bit ID type -
rather than to the number 4294967296 itself. -/
theorem c5_id_resolution_cx :
    (∀ ch ∈ (['4', '2', '9', '4', '9', '6', '7', '2', '9', '6'] : FPath), ch.isDigit) ∧
    resolveId [] ['4', '2', '9', '4', '9', '6', '7', '2', '9', '6'] = some 0 ∧
    (0 : Nat) ≠ 4294967296 := by
  decide

/-- C6 (confirmed). In copy mode the source is inspected with lstat,
which does not follow a final symlink: an injected metadata-lookup
failure, a missing source, a directory source, and any other
non-regular non-symlink file type each abort the run with exit status 1
and the corresponding diagnostic, the filesystem being exactly the one
after the (optional) parent-creation step - and that step never touches
the entries at the destination path or the temporary path, so the
destination is neither created nor modified. -/
theorem c6_source_check_errors (c : Cfg) (env : Env) (fs : Fs)
    (hs : c.symbolic = false) :
    (env.lstatErr = true →
      install c env fs = ⟨1, some .lstatFail, false, dirPhase c env fs⟩) ∧
    (env.lstatErr = false → fsFind (dirPhase c env fs) c.src = none →
      install c env fs = ⟨1, some .srcNoExist, false, dirPhase c env fs⟩) ∧
    (∀ m o g, env.lstatErr = false → fsFind (dirPhase c env fs) c.src = some (.dir m o g) →
      install c env fs = ⟨1, some .srcIsDir, false, dirPhase c env fs⟩) ∧
    (env.lstatErr = false → fsFind (dirPhase c env fs) c.src = some .other →
      install c env fs = ⟨1, some .srcNotReg, false, dirPhase c env fs⟩) ∧
    fsFind (dirPhase c env fs) c.dst = fsFind fs c.dst ∧
    fsFind (dirPhase c env fs) (tmpOf c) = fsFind fs (tmpOf c) := by
  refine ⟨fun hls => ?_, fun hls hsrc => ?_, fun m o g hls hsrc => ?_, fun hls hsrc => ?_,
    dirPhase_find_dst c env fs, dirPhase_find_tmp c env fs⟩
  · exact install_eq_err c env fs (.lstatFail, dirPhase c env fs)
      (by unfold mkTempPhase; rw [hs]; simp [hls])
  · exact install_eq_err c env fs (.srcNoExist, dirPhase c env fs)
      (by unfold mkTempPhase; rw [hs]; simp [hls, hsrc])
  · exact install_eq_err c env fs (.srcIsDir, dirPhase c env fs)
      (by unfold mkTempPhase; rw [hs]; simp [hls, hsrc, lstatIsRegOrLnk, lstatIsDir])
  · exact install_eq_err c env fs (.srcNotReg, dirPhase c env fs)
      (by unfold mkTempPhase; rw [hs]; simp [hls, hsrc, lstatIsRegOrLnk, lstatIsDir])

/-- Witness for C6: installing from the missing source nx exits 1 with
the source-does-not-exist diagnostic and leaves the filesystem - in
particular the destination - untouched. -/
theorem c6_source_check_errors_witness :
    (⟨false, false, 0, 0, 0o755, ['n', 'x'], ['d']⟩ : Cfg).symbolic = false ∧
    wEnv.lstatErr = false ∧
    fsFind (dirPhase ⟨false, false, 0, 0, 0o755, ['n', 'x'], ['d']⟩ wEnv wFsS)
      (⟨false, false, 0, 0, 0o755, ['n', 'x'], ['d']⟩ : Cfg).src = none ∧
    install ⟨false, false, 0, 0, 0o755, ['n', 'x'], ['d']⟩ wEnv wFsS
      = ⟨1, some .srcNoExist, false,
          dirPhase ⟨false, false, 0, 0, 0o755, ['n', 'x'], ['d']⟩ wEnv wFsS⟩ :=
  ⟨by decide, by decide, by decide,
    (c6_source_check_errors ⟨false, false, 0, 0, 0o755, ['n', 'x'], ['d']⟩ wEnv wFsS
      (by decide)).2.1 (by decide) (by decide)⟩

/-- C1 (corrected). For every invocation whose argument parse succeeds
(so not -h) and which exits with status 0 - provided nothing
pre-exists at the temporary path, no source read error is injected, and
the source block size is positive - the temporary path no longer
exists, and: in symbolic-link mode the destination is a symbolic link
whose target text is the literal source path argument, carrying the
requested owner and group (its permission bits are the fixed symlink
bits - the requested mode was applied through the link to its target,
not to the destination); in copy mode the destination is a regular
file with exactly the requested mode, owner and group whose content is
the bytes read from the opened source (the full content of the file
the source path resolves to; empty when it resolves to a
directory). -/
theorem c1_success_postcondition (args : List FPath) (env : Env) (fs : Fs) (c : Cfg)
    (hp : parseArgs env args = .pok c)
    (htmp : fsFind fs (tmpOf c) = none)
    (hre : env.readErrAfter = none)
    (hblk : 0 < env.blk)
    (h0 : (runMain args env fs).exit = 0) :
    fsFind (runMain args env fs).fs (tmpOf c) = none ∧
    (c.symbolic = true →
      fsFind (runMain args env fs).fs c.dst = some (.symlink c.src c.owner c.group)) ∧
    (c.symbolic = false →
      ∃ h2, openSrc (dirPhase c env fs) 40 c.src = some h2 ∧
        fsFind (runMain args env fs).fs c.dst =
          some (.file (if h2.isdir then [] else h2.bytes) c.mode c.owner c.group)) := by
  have hrm : runMain args env fs = install c env fs := by
    unfold runMain
    rw [hp]
  rw [hrm] at h0 ⊢
  exact install_success c env fs htmp hre hblk h0

/-- Witness for C1: the plain copy of the two-byte file s to d exits 0
and installs d with mode 0755, owner 0, group 0 and the source bytes,
with no temporary file left. -/
theorem c1_success_postcondition_witness :
    parseArgs wEnv [['s'], ['d']] = .pok wCfg ∧
    fsFind wFsS (tmpOf wCfg) = none ∧
    wEnv.readErrAfter = none ∧
    0 < wEnv.blk ∧
    (runMain [['s'], ['d']] wEnv wFsS).exit = 0 ∧
    (fsFind (runMain [['s'], ['d']] wEnv wFsS).fs (tmpOf wCfg) = none ∧
     (wCfg.symbolic = true →
       fsFind (runMain [['s'], ['d']] wEnv wFsS).fs wCfg.dst
         = some (.symlink wCfg.src wCfg.owner wCfg.group)) ∧
     (wCfg.symbolic = false →
       ∃ h2, openSrc (dirPhase wCfg wEnv wFsS) 40 wCfg.src = some h2 ∧
         fsFind (runMain [['s'], ['d']] wEnv wFsS).fs wCfg.dst =
           some (.file (if h2.isdir then [] else h2.bytes) wCfg.mode wCfg.owner wCfg.group))) :=
  ⟨by decide, by decide, by decide, by decide, by decide,
    c1_success_postcondition [['s'], ['d']] wEnv wFsS wCfg
      (by decide) (by decide) (by decide) (by decide) (by decide)⟩

/-- Counterexample to C1 as stated: the run -l -m 600 s d (with s an
existing regular file) exits 0, but the installed destination does not
carry the requested permission mode 0600: it is a symbolic link, whose
permission bits are the fixed symlink bits 0777, and the requested mode
was applied to the link target s instead, whose bits changed from 0644
to 0600. -/
theorem c1_success_postcondition_cx :
    (runMain [['-', 'l'], ['-', 'm'], ['6', '0', '0'], ['s'], ['d']] wEnv wFsS).exit = 0 ∧
    (runMain [['-', 'l'], ['-', 'm'], ['6', '0', '0'], ['s'], ['d']] wEnv wFsS).help = false ∧
    fsFind (runMain [['-', 'l'], ['-', 'm'], ['6', '0', '0'], ['s'], ['d']] wEnv wFsS).fs ['d']
      = some (.symlink ['s'] 0 0) ∧
    (fsFind (runMain [['-', 'l'], ['-', 'm'], ['6', '0', '0'], ['s'], ['d']] wEnv wFsS).fs ['d']).map objModeBits
      = some 0o777 ∧
    (0o777 : Nat) ≠ 0o600 ∧
    fsFind (runMain [['-', 'l'], ['-', 'm'], ['6', '0', '0'], ['s'], ['d']] wEnv wFsS).fs ['s']
      = some (.file [3, 4] 0o600 0 0) := by
  decide

/-- C7 (corrected). -h prints the usage text and exits 0, ignoring
everything after it, but only when the option scan actually reaches it:
whenever every argument before -h is consumed as successfully parsed
options (none of them the end-of-options marker consisting of two
dashes), the run prints help and exits 0 whatever follows; an earlier
option that fails fatally preempts -h (see the counterexample). -/
theorem c7_help_when_reached (env : Env) (fs : Fs) (xs ys : List FPath) (c2 : Cfg)
    (hscan : scanA env (initCfg env) xs = .ok c2 [])
    (hdd : ∀ a ∈ xs, a ≠ ('-' :: '-' :: [])) :
    runMain (xs ++ (('-' :: 'h' :: []) :: ys)) env fs = ⟨0, none, true, fs⟩ := by
  have h1 : scanA env (initCfg env) (xs ++ (('-' :: 'h' :: []) :: ys))
      = scanA env c2 (('-' :: 'h' :: []) :: ys) :=
    scanA_append_aux env xs.length xs (Nat.le_refl _) _ _ _ hscan hdd
  have h2 : scanA env c2 (('-' :: 'h' :: []) :: ys) = .help := rfl
  unfold runMain parseArgs
  rw [h1, h2]

/-- Witness for C7: after the valid option -D, the argument -h prints
help and exits 0, ignoring the trailing argument. -/
theorem c7_help_when_reached_witness :
    scanA wEnv (initCfg wEnv) [['-', 'D']] = .ok ⟨true, false, 0, 0, 0o755, [], []⟩ [] ∧
    (∀ a ∈ ([['-', 'D']] : List FPath), a ≠ ('-' :: '-' :: [])) ∧
    runMain [['-', 'D'], ['-', 'h'], ['x']] wEnv [] = ⟨0, none, true, []⟩ :=
  ⟨by decide, by decide,
    c7_help_when_reached wEnv [] [['-', 'D']] [['x']] ⟨true, false, 0, 0, 0o755, [], []⟩
      (by decide) (by decide)⟩

/-- Counterexample to C7 as stated: the command line -m 999 -h contains
-h, yet the invalid mode 999 is diagnosed first and the program exits 1
without printing the usage text. -/
theorem c7_help_when_reached_cx :
    (('-' :: 'h' :: []) ∈ ([['-', 'm'], ['9', '9', '9'], ['-', 'h']] : List FPath)) ∧
    runMain [['-', 'm'], ['9', '9', '9'], ['-', 'h']] wEnv []
      = ⟨1, some .invalidMode, false, []⟩ := by
  decide

/-- C8 (corrected). For every failure after the temporary file has been
produced but before the final rename the program exits with status 1
and an entry remains at the temporary path - for a mid-copy write
failure the partially-written file holding exactly the chunks written
so far, for a chmod or lchown failure (in copy or symbolic-link mode)
the completed temporary object - and the entry at the destination path
is exactly what it was before the run, provided no symbolic link
pre-existed at the temporary path (copy mode; otherwise the copy writes
through it, see the counterexample) and, for an lchown failure in
symbolic-link mode, the created link does not itself resolve to the
destination (chmod follows it there first). -/
theorem c8_late_failure_leaves_tmp (c : Cfg) (env : Env) (fs : Fs) :
    (∀ (bytes : List Nat) (fm fo fg k : Nat),
      c.symbolic = false → env.lstatErr = false →
      env.readErrAfter = none → env.writeErrAfter = some k → 0 < env.blk →
      fsFind (dirPhase c env fs) c.src = some (.file bytes fm fo fg) →
      fsFind (dirPhase c env fs) (tmpOf c) = none →
      parentOkB (dirPhase c env fs) (tmpOf c) = true →
      k * env.blk < bytes.length →
      (install c env fs).exit = 1 ∧
      (install c env fs).ftag = some .writeFail ∧
      fsFind (install c env fs).fs (tmpOf c)
        = some (.file (bytes.take (k * env.blk)) 0o600 env.uid env.gid) ∧
      fsFind (install c env fs).fs c.dst = fsFind fs c.dst) ∧
    (∀ fs2,
      c.symbolic = false → isLinkAt fs (tmpOf c) = false →
      mkTempPhase c env (dirPhase c env fs) = .ok fs2 →
      (env.chmodErr = true ∨ (env.chmodErr = false ∧ env.chownErr = true)) →
      (install c env fs).exit = 1 ∧
      fsFind (install c env fs).fs (tmpOf c) ≠ none ∧
      fsFind (install c env fs).fs c.dst = fsFind fs c.dst) ∧
    (∀ fs2 (m : FatalMsg),
      c.symbolic = true →
      mkTempPhase c env (dirPhase c env fs) = .ok fs2 →
      chmodE env fs2 (tmpOf c) c.mode = .error m →
      (install c env fs).exit = 1 ∧
      fsFind (install c env fs).fs (tmpOf c) ≠ none ∧
      fsFind (install c env fs).fs c.dst = fsFind fs c.dst) ∧
    (∀ fs2 fs3,
      c.symbolic = true →
      mkTempPhase c env (dirPhase c env fs) = .ok fs2 →
      chmodE env fs2 (tmpOf c) c.mode = .ok fs3 →
      env.chownErr = true →
      resolveEntry fs2 40 (tmpOf c) ≠ some c.dst →
      (install c env fs).exit = 1 ∧
      fsFind (install c env fs).fs (tmpOf c) ≠ none ∧
      fsFind (install c env fs).fs c.dst = fsFind fs c.dst) := by
  refine ⟨?_, ?_, ?_, ?_⟩
  · -- mid-copy write failure
    intro bytes fm fo fg k hs hls hre hwe hblk hsrc htmp hpar hk
    have hos : openSrc (dirPhase c env fs) 40 c.src = some ⟨bytes, false⟩ :=
      openSrc_of_file _ c.src bytes fm fo fg hsrc
    have hoc := openCreate_of_none env (dirPhase c env fs) (tmpOf c) htmp hpar
    have hloop : copyLoopF env.blk
        (if (⟨bytes, false⟩ : SrcHandle).isdir then some 0 else env.readErrAfter)
        env.writeErrAfter (bytes.length + 1) 0 bytes []
        = .error (bytes.take (k * env.blk)) := by
      have hcond : (if (⟨bytes, false⟩ : SrcHandle).isdir then some 0 else env.readErrAfter)
          = none := by
        simp [hre]
      rw [hcond, hwe]
      have hle := copyLoopF_writeErr env.blk k (bytes.length + 1) 0 bytes []
        hblk (Nat.zero_le k) (by omega) (by simpa using hk)
      simpa using hle
    have hMT := mkTempPhase_copy_writeErr c env (dirPhase c env fs) (.file bytes fm fo fg)
      ⟨bytes, false⟩
      ⟨tmpOf c, [], 0o600, env.uid, env.gid,
        fsSet (dirPhase c env fs) (tmpOf c) (.file [] 0o600 env.uid env.gid)⟩
      (bytes.take (k * env.blk)) hs hls hsrc rfl hos hoc hloop
    have hMT2 : mkTempPhase c env (dirPhase c env fs)
        = .error (.writeFail,
            fsSet (dirPhase c env fs) (tmpOf c)
              (.file (bytes.take (k * env.blk)) 0o600 env.uid env.gid)) := by
      rw [hMT]
      rw [fsSet_fsSet]
      simp
    rw [install_eq_err c env fs _ hMT2]
    refine ⟨rfl, rfl, ?_, ?_⟩
    · dsimp only
      simp
    · dsimp only
      rw [fsFind_fsSet_ne _ _ _ _ (tmpOf_ne_dst c), dirPhase_find_dst]
  · -- chmod or lchown failure after a completed copy
    intro fs2 hs hnl hM herr
    have hnl1 : ∀ t a b, fsFind (dirPhase c env fs) (tmpOf c) ≠ some (.symlink t a b) := by
      rw [dirPhase_find_tmp]
      exact isLinkAt_false fs (tmpOf c) hnl
    obtain ⟨cont, m, o, g, h2eq⟩ := mkTemp_copy_ok_notlink c env _ fs2 hs hnl1 hM
    have hf2 : fsFind fs2 (tmpOf c) = some (.file cont m o g) := by
      rw [h2eq]
      simp
    rcases herr with hch | ⟨hch, hco⟩
    · rw [install_chmodInj_eq c env fs fs2 hM hch]
      refine ⟨rfl, ?_, ?_⟩
      · dsimp only
        rw [hf2]
        simp
      · dsimp only
        rw [h2eq, fsFind_fsSet_ne _ _ _ _ (tmpOf_ne_dst c), dirPhase_find_dst]
    · rw [install_chownInj_eq c env fs fs2 (.file cont m o g) hM hch hco hf2
        (by intro t a b hcx; exact absurd hcx (by simp))]
      refine ⟨rfl, ?_, ?_⟩
      · dsimp only
        simp
      · dsimp only
        rw [fsFind_fsSet_ne _ _ _ _ (tmpOf_ne_dst c), h2eq,
          fsFind_fsSet_ne _ _ _ _ (tmpOf_ne_dst c), dirPhase_find_dst]
  · -- chmod failure in symbolic-link mode
    intro fs2 m hs hM hCe
    obtain ⟨h2eq, _⟩ := mkTemp_sym_ok c env _ fs2 hs hM
    rw [install_eq_ok c env fs fs2 hM, install2_eq_err c env fs2 m hCe]
    refine ⟨rfl, ?_, ?_⟩
    · dsimp only
      rw [h2eq]
      simp
    · dsimp only
      rw [h2eq, fsFind_fsSet_ne _ _ _ _ (tmpOf_ne_dst c), dirPhase_find_dst]
  · -- lchown failure in symbolic-link mode
    intro fs2 fs3 hs hM hC hco hqd
    obtain ⟨h2eq, _⟩ := mkTemp_sym_ok c env _ fs2 hs hM
    obtain ⟨hch, q, o, hres, hfq, h3⟩ := chmodE_ok env fs2 fs3 _ _ hC
    have hqdst : q ≠ c.dst := by
      intro he
      subst he
      exact hqd hres
    have hf2t : fsFind fs2 (tmpOf c) = some (.symlink c.src env.uid env.gid) := by
      rw [h2eq]
      simp
    obtain ⟨o2, hfq2, hnl2⟩ := resolveEntry_some fs2 40 (tmpOf c) q hres
    rw [hfq] at hfq2
    injection hfq2 with hoo
    subst hoo
    have hqt : q ≠ tmpOf c := by
      intro he
      subst he
      rw [hfq] at hf2t
      injection hf2t with h2'
      exact hnl2 c.src env.uid env.gid h2'
    rw [install_eq_ok c env fs fs2 hM, install2_eq_ok c env fs2 fs3 hC,
      install3_eq_err c env fs3 .chownFail
        (lchownE_errInj env fs3 (tmpOf c) c.owner c.group hco)]
    refine ⟨rfl, ?_, ?_⟩
    · dsimp only
      rw [h3, fsFind_fsSet_ne _ _ _ _ hqt, hf2t]
      simp
    · dsimp only
      rw [h3, fsFind_fsSet_ne _ _ _ _ hqdst, h2eq,
        fsFind_fsSet_ne _ _ _ _ (tmpOf_ne_dst c), dirPhase_find_dst]

/-- Witness for C8, exercising three of the failure points: a write
failure after one chunk leaves a two-byte d.tmp and exit 1; an injected
chmod failure after a completed copy leaves d.tmp and d untouched; and
in symbolic-link mode the chmod of a link to the nonexistent nx fails,
leaving the link at d.tmp and the absent destination untouched. -/
theorem c8_late_failure_leaves_tmp_witness :
    (wCfg.symbolic = false ∧ wEnvWe.writeErrAfter = some 1 ∧
     1 * wEnvWe.blk < ([3, 4, 5] : List Nat).length ∧
     ((install wCfg wEnvWe wFsS3).exit = 1 ∧
      (install wCfg wEnvWe wFsS3).ftag = some .writeFail ∧
      fsFind (install wCfg wEnvWe wFsS3).fs (tmpOf wCfg)
        = some (.file ([3, 4, 5].take (1 * wEnvWe.blk)) 0o600 0 0) ∧
      fsFind (install wCfg wEnvWe wFsS3).fs wCfg.dst = fsFind wFsS3 wCfg.dst)) ∧
    (isLinkAt wFsS (tmpOf wCfg) = false ∧ wEnvCh.chmodErr = true ∧
     ((install wCfg wEnvCh wFsS).exit = 1 ∧
      fsFind (install wCfg wEnvCh wFsS).fs (tmpOf wCfg) ≠ none ∧
      fsFind (install wCfg wEnvCh wFsS).fs wCfg.dst = fsFind wFsS wCfg.dst)) ∧
    (wCfgL.symbolic = true ∧
     chmodE wEnv (fsSet [] (tmpOf wCfgL) (.symlink ['n', 'x'] 0 0)) (tmpOf wCfgL) wCfgL.mode
       = .error .chmodFail ∧
     ((install wCfgL wEnv []).exit = 1 ∧
      fsFind (install wCfgL wEnv []).fs (tmpOf wCfgL) ≠ none ∧
      fsFind (install wCfgL wEnv []).fs wCfgL.dst = fsFind [] wCfgL.dst)) :=
  ⟨⟨by decide, by decide, by decide,
    (c8_late_failure_leaves_tmp wCfg wEnvWe wFsS3).1 [3, 4, 5] 0o644 0 0 1
      (by decide) (by decide) (by decide) (by decide) (by decide) (by decide)
      (by decide) (by decide) (by decide)⟩,
   ⟨by decide, by decide,
    (c8_late_failure_leaves_tmp wCfg wEnvCh wFsS).2.1
      (fsSet wFsS (tmpOf wCfg) (.file [3, 4] 0o600 0 0))
      (by decide) (by decide) (by decide) (Or.inl (by decide))⟩,
   ⟨by decide, by decide,
    (c8_late_failure_leaves_tmp wCfgL wEnv []).2.2.1
      (fsSet [] (tmpOf wCfgL) (.symlink ['n', 'x'] 0 0)) .chmodFail
      (by decide) (by decide) (by decide)⟩⟩

/-- Counterexample to C8 as stated: with a symbolic link d.tmp pointing
at the destination d already on disk, the copy writes through the link,
so when chmod then fails - a failure after the temporary file was
produced and before the rename - the run exits 1 with the entry at the
temporary path still present, but the destination d HAS been modified:
its content was overwritten from [1, 2, 3] to [7, 8, 3]. -/
theorem c8_late_failure_leaves_tmp_cx :
    (install wCfg wEnvCh wFsL).exit = 1 ∧
    (install wCfg wEnvCh wFsL).ftag = some .chmodFail ∧
    fsFind (install wCfg wEnvCh wFsL).fs (tmpOf wCfg) = some (.symlink ['d'] 0 0) ∧
    fsFind wFsL ['d'] = some (.file [1, 2, 3] 0o644 0 0) ∧
    fsFind (install wCfg wEnvCh wFsL).fs ['d'] = some (.file [7, 8, 3] 0o644 0 0) ∧
    some (FsObj.file ([7, 8, 3] : List Nat) 0o644 0 0)
      ≠ some (FsObj.file ([1, 2, 3] : List Nat) 0o644 0 0) := by
  decide

/-- C9 (confirmed). In copy mode a read failure on the source after k
successful chunk reads is treated exactly like end of stream: the copy
loop ends without any diagnostic, the run proceeds through chmod,
lchown and rename, and exits with status 0 having installed only the
first k blocks of the source at the destination - a truncated file
delivered with a success status. -/
theorem c9_read_error_silent_truncation (c : Cfg) (env : Env) (fs : Fs)
    (bytes : List Nat) (fm fo fg : Nat) (k : Nat)
    (hs : c.symbolic = false) (hls : env.lstatErr = false)
    (hch : env.chmodErr = false) (hco : env.chownErr = false)
    (hre : env.readErrAfter = some k) (hwe : env.writeErrAfter = none)
    (hsrc : fsFind (dirPhase c env fs) c.src = some (.file bytes fm fo fg))
    (htmp : fsFind (dirPhase c env fs) (tmpOf c) = none)
    (hpar : parentOkB (dirPhase c env fs) (tmpOf c) = true)
    (hdst : isDirAt (dirPhase c env fs) c.dst = false) :
    (install c env fs).exit = 0 ∧
    (install c env fs).ftag = none ∧
    fsFind (install c env fs).fs c.dst
      = some (.file (bytes.take (k * env.blk)) c.mode c.owner c.group) ∧
    fsFind (install c env fs).fs (tmpOf c) = none := by
  have hos : openSrc (dirPhase c env fs) 40 c.src = some ⟨bytes, false⟩ :=
    openSrc_of_file _ c.src bytes fm fo fg hsrc
  have hoc := openCreate_of_none env (dirPhase c env fs) (tmpOf c) htmp hpar
  have hloop : copyLoopF env.blk
      (if (⟨bytes, false⟩ : SrcHandle).isdir then some 0 else env.readErrAfter)
      env.writeErrAfter (bytes.length + 1) 0 bytes []
      = .ok (bytes.take (k * env.blk)) := by
    have hcond : (if (⟨bytes, false⟩ : SrcHandle).isdir then some 0 else env.readErrAfter)
        = some k := by
      simp [hre]
    rw [hcond, hwe]
    have h2 := copyLoopF_readErr env.blk k (bytes.length + 1) 0 bytes []
      (Nat.zero_le k) (by omega)
    simpa using h2
  have hMT := mkTempPhase_copy_compute c env (dirPhase c env fs) (.file bytes fm fo fg)
    ⟨bytes, false⟩
    ⟨tmpOf c, [], 0o600, env.uid, env.gid,
      fsSet (dirPhase c env fs) (tmpOf c) (.file [] 0o600 env.uid env.gid)⟩
    (bytes.take (k * env.blk)) hs hls hsrc rfl hos hoc hloop
  have hMT2 : mkTempPhase c env (dirPhase c env fs)
      = .ok (fsSet (dirPhase c env fs) (tmpOf c)
          (.file (bytes.take (k * env.blk)) 0o600 env.uid env.gid)) := by
    rw [hMT]
    rw [fsSet_fsSet]
    simp
  have hC : chmodE env (fsSet (dirPhase c env fs) (tmpOf c)
        (.file (bytes.take (k * env.blk)) 0o600 env.uid env.gid)) (tmpOf c) c.mode
      = .ok (fsSet (dirPhase c env fs) (tmpOf c)
          (.file (bytes.take (k * env.blk)) c.mode env.uid env.gid)) := by
    rw [chmodE_compute env _ (tmpOf c) c.mode
      (.file (bytes.take (k * env.blk)) 0o600 env.uid env.gid) hch
      (fsFind_fsSet_self _ _ _) (by intro t a b hcx; exact absurd hcx (by simp))]
    rw [fsSet_fsSet]
    rfl
  have hO : lchownE env (fsSet (dirPhase c env fs) (tmpOf c)
        (.file (bytes.take (k * env.blk)) c.mode env.uid env.gid)) (tmpOf c) c.owner c.group
      = .ok (fsSet (dirPhase c env fs) (tmpOf c)
          (.file (bytes.take (k * env.blk)) c.mode c.owner c.group)) := by
    rw [lchownE_compute env _ (tmpOf c) c.owner c.group
      (.file (bytes.take (k * env.blk)) c.mode env.uid env.gid) hco
      (fsFind_fsSet_self _ _ _)]
    rw [fsSet_fsSet]
    rfl
  have hR : renameE (fsSet (dirPhase c env fs) (tmpOf c)
        (.file (bytes.take (k * env.blk)) c.mode c.owner c.group)) (tmpOf c) c.dst
      = .ok (fsSet (fsDel (dirPhase c env fs) (tmpOf c)) c.dst
          (.file (bytes.take (k * env.blk)) c.mode c.owner c.group)) := by
    rw [renameE_compute _ (tmpOf c) c.dst
      (.file (bytes.take (k * env.blk)) c.mode c.owner c.group)
      (fsFind_fsSet_self _ _ _)
      (by
        intro m2 o2 g2
        rw [fsFind_fsSet_ne _ _ _ _ (tmpOf_ne_dst c)]
        exact isDirAt_false _ c.dst hdst m2 o2 g2)]
    rw [fsDel_fsSet_self]
  rw [install_eq_ok c env fs _ hMT2, install2_eq_ok c env _ _ hC,
    install3_eq_ok c env _ _ hO, install4_eq_ok c _ _ hR]
  refine ⟨rfl, rfl, ?_, ?_⟩
  · dsimp only
    simp
  · dsimp only
    rw [fsFind_fsSet_ne _ _ _ _ (tmpOf_ne_dst c).symm, fsFind_fsDel_self]

/-- Witness for C9: with block size 2 and a read error injected after
one chunk, installing the three-byte source s produces a two-byte
destination d and exit status 0. -/
theorem c9_read_error_silent_truncation_witness :
    wCfg.symbolic = false ∧ wEnvRe.lstatErr = false ∧
    wEnvRe.chmodErr = false ∧ wEnvRe.chownErr = false ∧
    wEnvRe.readErrAfter = some 1 ∧ wEnvRe.writeErrAfter = none ∧
    fsFind (dirPhase wCfg wEnvRe wFsS3) wCfg.src = some (.file [3, 4, 5] 0o644 0 0) ∧
    fsFind (dirPhase wCfg wEnvRe wFsS3) (tmpOf wCfg) = none ∧
    parentOkB (dirPhase wCfg wEnvRe wFsS3) (tmpOf wCfg) = true ∧
    isDirAt (dirPhase wCfg wEnvRe wFsS3) wCfg.dst = false ∧
    ((install wCfg wEnvRe wFsS3).exit = 0 ∧
     (install wCfg wEnvRe wFsS3).ftag = none ∧
     fsFind (install wCfg wEnvRe wFsS3).fs wCfg.dst
       = some (.file ([3, 4, 5].take (1 * wEnvRe.blk)) wCfg.mode wCfg.owner wCfg.group) ∧
     fsFind (install wCfg wEnvRe wFsS3).fs (tmpOf wCfg) = none) :=
  ⟨by decide, by decide, by decide, by decide, by decide, by decide, by decide,
    by decide, by decide, by decide,
    c9_read_error_silent_truncation wCfg wEnvRe wFsS3 [3, 4, 5] 0o644 0 0 1
      (by decide) (by decide) (by decide) (by decide) (by decide) (by decide)
      (by decide) (by decide) (by decide) (by decide)⟩

/-- C10 (confirmed). The temporary path is opened with O_CREAT but
neither O_TRUNC nor O_EXCL: when a regular file longer than the source
already sits at the temporary path, the copied bytes overwrite only its
front and the stale trailing bytes survive into the renamed
destination of a run that exits 0. -/
theorem c10_stale_tmp_bytes_survive (c : Cfg) (env : Env) (fs : Fs)
    (bytes old : List Nat) (fm fo fg om oo og : Nat)
    (hs : c.symbolic = false) (hls : env.lstatErr = false)
    (hch : env.chmodErr = false) (hco : env.chownErr = false)
    (hre : env.readErrAfter = none) (hwe : env.writeErrAfter = none)
    (hblk : 0 < env.blk)
    (hsrc : fsFind (dirPhase c env fs) c.src = some (.file bytes fm fo fg))
    (htmp : fsFind (dirPhase c env fs) (tmpOf c) = some (.file old om oo og))
    (hlong : bytes.length < old.length)
    (hdst : isDirAt (dirPhase c env fs) c.dst = false) :
    (install c env fs).exit = 0 ∧
    fsFind (install c env fs).fs c.dst
      = some (.file (bytes ++ old.drop bytes.length) c.mode c.owner c.group) ∧
    old.drop bytes.length ≠ [] := by
  have hos : openSrc (dirPhase c env fs) 40 c.src = some ⟨bytes, false⟩ :=
    openSrc_of_file _ c.src bytes fm fo fg hsrc
  have hoc := openCreate_of_file env (dirPhase c env fs) (tmpOf c) old om oo og htmp
  have hloop : copyLoopF env.blk
      (if (⟨bytes, false⟩ : SrcHandle).isdir then some 0 else env.readErrAfter)
      env.writeErrAfter (bytes.length + 1) 0 bytes [] = .ok bytes := by
    have hcond : (if (⟨bytes, false⟩ : SrcHandle).isdir then some 0 else env.readErrAfter)
        = none := by
      simp [hre]
    rw [hcond, hwe]
    have h2 := copyLoopF_full_fwd env.blk (bytes.length + 1) 0 bytes [] hblk (by omega)
    simpa using h2
  have hMT := mkTempPhase_copy_compute c env (dirPhase c env fs) (.file bytes fm fo fg)
    ⟨bytes, false⟩ ⟨tmpOf c, old, om, oo, og, dirPhase c env fs⟩
    bytes hs hls hsrc rfl hos hoc hloop
  have hMT2 : mkTempPhase c env (dirPhase c env fs)
      = .ok (fsSet (dirPhase c env fs) (tmpOf c)
          (.file (bytes ++ old.drop bytes.length) om oo og)) := hMT
  have hC : chmodE env (fsSet (dirPhase c env fs) (tmpOf c)
        (.file (bytes ++ old.drop bytes.length) om oo og)) (tmpOf c) c.mode
      = .ok (fsSet (dirPhase c env fs) (tmpOf c)
          (.file (bytes ++ old.drop bytes.length) c.mode oo og)) := by
    rw [chmodE_compute env _ (tmpOf c) c.mode
      (.file (bytes ++ old.drop bytes.length) om oo og) hch
      (fsFind_fsSet_self _ _ _) (by intro t a b hcx; exact absurd hcx (by simp))]
    rw [fsSet_fsSet]
    rfl
  have hO : lchownE env (fsSet (dirPhase c env fs) (tmpOf c)
        (.file (bytes ++ old.drop bytes.length) c.mode oo og)) (tmpOf c) c.owner c.group
      = .ok (fsSet (dirPhase c env fs) (tmpOf c)
          (.file (bytes ++ old.drop bytes.length) c.mode c.owner c.group)) := by
    rw [lchownE_compute env _ (tmpOf c) c.owner c.group
      (.file (bytes ++ old.drop bytes.length) c.mode oo og) hco
      (fsFind_fsSet_self _ _ _)]
    rw [fsSet_fsSet]
    rfl
  have hR : renameE (fsSet (dirPhase c env fs) (tmpOf c)
        (.file (bytes ++ old.drop bytes.length) c.mode c.owner c.group)) (tmpOf c) c.dst
      = .ok (fsSet (fsDel (dirPhase c env fs) (tmpOf c)) c.dst
          (.file (bytes ++ old.drop bytes.length) c.mode c.owner c.group)) := by
    rw [renameE_compute _ (tmpOf c) c.dst
      (.file (bytes ++ old.drop bytes.length) c.mode c.owner c.group)
      (fsFind_fsSet_self _ _ _)
      (by
        intro m2 o2 g2
        rw [fsFind_fsSet_ne _ _ _ _ (tmpOf_ne_dst c)]
        exact isDirAt_false _ c.dst hdst m2 o2 g2)]
    rw [fsDel_fsSet_self]
  rw [install_eq_ok c env fs _ hMT2, install2_eq_ok c env _ _ hC,
    install3_eq_ok c env _ _ hO, install4_eq_ok c _ _ hR]
  refine ⟨rfl, ?_, ?_⟩
  · dsimp only
    simp
  · intro hnil
    have := congrArg List.length hnil
    simp [List.length_drop] at this
    omega

/-- Witness for C10: with a six-byte file already at d.tmp and a
two-byte source s, the run exits 0 and installs d with the two source
bytes followed by the four stale bytes. -/
theorem c10_stale_tmp_bytes_survive_witness :
    wCfg.symbolic = false ∧ wEnv.readErrAfter = none ∧ 0 < wEnv.blk ∧
    fsFind (dirPhase wCfg wEnv wFsT) wCfg.src = some (.file [3, 4] 0o644 0 0) ∧
    fsFind (dirPhase wCfg wEnv wFsT) (tmpOf wCfg)
      = some (.file [9, 9, 9, 9, 9, 9] 0o600 0 0) ∧
    isDirAt (dirPhase wCfg wEnv wFsT) wCfg.dst = false ∧
    ((install wCfg wEnv wFsT).exit = 0 ∧
     fsFind (install wCfg wEnv wFsT).fs wCfg.dst
       = some (.file ([3, 4] ++ [9, 9, 9, 9, 9, 9].drop 2) wCfg.mode wCfg.owner wCfg.group) ∧
     ([9, 9, 9, 9, 9, 9] : List Nat).drop 2 ≠ []) :=
  ⟨by decide, by decide, by decide, by decide, by decide, by decide,
    c10_stale_tmp_bytes_survive wCfg wEnv wFsT [3, 4] [9, 9, 9, 9, 9, 9] 0o644 0 0 0o600 0 0
      (by decide) (by decide) (by decide) (by decide) (by decide) (by decide)
      (by decide) (by decide) (by decide) (by decide) (by decide)⟩

end Install
